import Mathlib

/-!
# Verification of the ntpd-rs NTP/NTS packet codec

Shallow embedding of `src/ntp-proto/src/packet.rs`: the wire codec for NTPv3/v4
packets with NTS extension fields, and theorems checking the specification's
claims about it.

Byte buffers are modelled as `List Nat` (each entry a value `< 256` on real
inputs; parse theorems that reconstruct bytes carry that bound as a
hypothesis).  Machine integers are `Nat` with explicit `% 2^w` where the Rust
code casts.  Fallible parsing returns `Except PacketParsingError`.  The AEAD
cipher (`aes_siv::Aes128SivAead` in the source) is external to the repository
and is modelled as an abstract pair of encrypt/decrypt functions passed in by
the caller, exactly as the source passes a `&Cipher`.

The parser loops in `ExtensionFieldData::deserialize` are `while` loops; they
are embedded as structurally recursive functions over an explicit iteration
bound (`fuel`).  Every iteration of the source loops consumes at least 4
octets of input, so the top-level entry points pass `data.length` as the
bound, which always exceeds the possible iteration count; the fuel-exhausted
branch returns the same value as the loop-exit branch and is unreachable for
those calls.
-/

instance {ε α : Type} [DecidableEq ε] [DecidableEq α] : DecidableEq (Except ε α) :=
  fun x y =>
    match x, y with
    | .ok a, .ok b =>
      match decEq a b with
      | isTrue h => isTrue (h ▸ rfl)
      | isFalse h => isFalse (fun hh => h (Except.ok.inj hh))
    | .error a, .error b =>
      match decEq a b with
      | isTrue h => isTrue (h ▸ rfl)
      | isFalse h => isFalse (fun hh => h (Except.error.inj hh))
    | .ok _, .error _ => isFalse (fun hh => Except.noConfusion hh)
    | .error _, .ok _ => isFalse (fun hh => Except.noConfusion hh)

/-- Byte at index `i` of a buffer (0 when out of range; every use either has
the bound in scope, mirroring a Rust direct index that cannot panic there, or
models `u16::from_be_bytes` on a slice whose existence was already checked). -/
def byteAt (data : List Nat) (i : Nat) : Nat := data.getD i 0

/-- The contiguous sub-buffer `data[a..b]` (clipped; used only where the Rust
code indexes in-bounds). -/
def listSlice (data : List Nat) (a b : Nat) : List Nat := (data.drop a).take (b - a)

/-- Rust's `data.get(a..b)`: `none` when `a > b` or `b > data.len()`. -/
def sliceGet (data : List Nat) (a b : Nat) : Option (List Nat) :=
  if a ≤ b ∧ b ≤ data.length then some (listSlice data a b) else none

/-- Big-endian bytes of a `u16` value (`u16::to_be_bytes`). -/
def u16_be (v : Nat) : List Nat := [v / 256 % 256, v % 256]

/-- Big-endian bytes of a `u32` value (`u32::to_be_bytes`). -/
def u32_be (v : Nat) : List Nat :=
  [v / 16777216 % 256, v / 65536 % 256, v / 256 % 256, v % 256]

/-- `u16::from_be_bytes` on `data[i..i+2]`. -/
def readU16 (data : List Nat) (i : Nat) : Nat := byteAt data i * 256 + byteAt data (i + 1)

/-- `u32::from_be_bytes` on `data[i..i+4]`. -/
def readU32 (data : List Nat) (i : Nat) : Nat :=
  byteAt data i * 16777216 + byteAt data (i + 1) * 65536 +
    byteAt data (i + 2) * 256 + byteAt data (i + 3)

/-- `next_multiple_of` from packet.rs (rounds `lhs` up to a multiple of `rhs`). -/
def next_multiple_of (lhs rhs : Nat) : Nat :=
  match lhs % rhs with
  | 0 => lhs
  | r => lhs + (rhs - r)

inductive PacketParsingError
  | InvalidVersion (version : Nat)
  | IncorrectLength
  | MalformedNtsExtensionFields
  | MalformedNonce
  | DecryptError
deriving DecidableEq, Repr

/-- The AEAD cipher used for NTS (`aes_siv::Aes128SivAead` in the source, a
crate external to this repository): modelled as abstract encrypt/decrypt
functions over (nonce, message, associated data). `decrypt` returns `none` on
authentication failure. -/
structure Cipher where
  encrypt : List Nat → List Nat → List Nat → List Nat
  decrypt : List Nat → List Nat → List Nat → Option (List Nat)

inductive NtpLeapIndicator
  | NoWarning
  | Leap61
  | Leap59
  | Unknown
deriving DecidableEq, Repr

/-- `NtpLeapIndicator::from_bits`; only ever called with 2-bit values, the
source marks larger inputs `unreachable!()` (totalised here by the last arm). -/
def NtpLeapIndicator.from_bits (bits : Nat) : NtpLeapIndicator :=
  match bits with
  | 0 => .NoWarning
  | 1 => .Leap61
  | 2 => .Leap59
  | _ => .Unknown

def NtpLeapIndicator.to_bits : NtpLeapIndicator → Nat
  | .NoWarning => 0
  | .Leap61 => 1
  | .Leap59 => 2
  | .Unknown => 3

inductive NtpAssociationMode
  | Reserved
  | SymmetricActive
  | SymmetricPassive
  | Client
  | Server
  | Broadcast
  | Control
  | Private
deriving DecidableEq, Repr

/-- `NtpAssociationMode::from_bits`; only ever called with 3-bit values, the
source marks larger inputs `unreachable!()` (totalised here by the last arm). -/
def NtpAssociationMode.from_bits (bits : Nat) : NtpAssociationMode :=
  match bits with
  | 0 => .Reserved
  | 1 => .SymmetricActive
  | 2 => .SymmetricPassive
  | 3 => .Client
  | 4 => .Server
  | 5 => .Broadcast
  | 6 => .Control
  | _ => .Private

def NtpAssociationMode.to_bits : NtpAssociationMode → Nat
  | .Reserved => 0
  | .SymmetricActive => 1
  | .SymmetricPassive => 2
  | .Client => 3
  | .Server => 4
  | .Broadcast => 5
  | .Control => 6
  | .Private => 7

inductive ExtensionField
  | UniqueIdentifier (data : List Nat)
  | NtsCookie (data : List Nat)
  | NtsCookiePlaceholder (cookie_length : Nat)
  | Unknown (type_id : Nat) (data : List Nat)
deriving DecidableEq, Repr

def ExtensionField.encode_unique_identifier (identifier : List Nat) : List Nat :=
  u16_be 0x0104 ++ u16_be ((4 + identifier.length) % 65536) ++ identifier ++
    List.replicate (next_multiple_of identifier.length 4 - identifier.length) 0

def ExtensionField.encode_nts_cookie (cookie : List Nat) : List Nat :=
  u16_be 0x0204 ++ u16_be ((4 + cookie.length) % 65536) ++ cookie ++
    List.replicate (next_multiple_of cookie.length 4 - cookie.length) 0

def ExtensionField.encode_nts_cookie_placeholder (cookie_length : Nat) : List Nat :=
  u16_be 0x0304 ++ u16_be ((4 + cookie_length) % 65536) ++
    List.replicate (next_multiple_of cookie_length 4) 0

def ExtensionField.encode_unknown (type_id : Nat) (data : List Nat) : List Nat :=
  u16_be (type_id % 65536) ++ u16_be ((4 + data.length) % 65536) ++ data ++
    List.replicate (next_multiple_of data.length 4 - data.length) 0

/-- `ExtensionField::serialize` (writes one extension field frame). -/
def ExtensionField.serialize : ExtensionField → List Nat
  | .UniqueIdentifier identifier => ExtensionField.encode_unique_identifier identifier
  | .NtsCookie cookie => ExtensionField.encode_nts_cookie cookie
  | .NtsCookiePlaceholder cookie_length =>
      ExtensionField.encode_nts_cookie_placeholder (cookie_length % 65536)
  | .Unknown type_id data => ExtensionField.encode_unknown type_id data

/-- Concatenated serialization of a list of extension fields (the plaintext
staging buffer of `encode_encryped`, and the per-class output regions of
`ExtensionFieldData::serialize`). -/
def serializeFields (fields : List ExtensionField) : List Nat :=
  (fields.map ExtensionField.serialize).flatten

/-- `ExtensionField::encode_encryped` (sic): the NTS encrypted-and-
authenticated extension field.  `packet_so_far` is the part of the packet
already written into the cursor, used as associated data. -/
def ExtensionField.encode_encryped (packet_so_far : List Nat)
    (fields_to_encrypt : List ExtensionField) (cipher : Cipher) (nonce : List Nat) :
    List Nat :=
  let plaintext := serializeFields fields_to_encrypt
  let ct := cipher.encrypt nonce plaintext packet_so_far
  let signature_octet_count := 8 + next_multiple_of (nonce.length + ct.length) 4
  u16_be 0x0404 ++ u16_be (signature_octet_count % 65536) ++
    u16_be (nonce.length % 65536) ++ u16_be (ct.length % 65536) ++
    nonce ++ List.replicate (next_multiple_of nonce.length 4 - nonce.length) 0 ++
    ct ++ List.replicate (next_multiple_of ct.length 4 - ct.length) 0

def ExtensionField.decode_unique_identifier (message : List Nat) :
    Except PacketParsingError ExtensionField :=
  if message.length < 32 then .error .IncorrectLength
  else .ok (.UniqueIdentifier message)

def ExtensionField.decode_nts_cookie (message : List Nat) :
    Except PacketParsingError ExtensionField :=
  .ok (.NtsCookie message)

def ExtensionField.decode_nts_cookie_placeholder (message : List Nat) :
    Except PacketParsingError ExtensionField :=
  if message.any (fun b => b ≠ 0) then .error .IncorrectLength
  else .ok (.NtsCookiePlaceholder (message.length % 65536))

def ExtensionField.decode_unknown (type_id : Nat) (message : List Nat) :
    Except PacketParsingError ExtensionField :=
  .ok (.Unknown type_id message)

/-- `UnparsedEncryptedField<'a>`: nonce and ciphertext of the encrypted
container, extracted but not yet decrypted. -/
structure UnparsedEncryptedField where
  nonce : List Nat
  ciphertext : List Nat
deriving DecidableEq, Repr

/-- `UnparsedEncryptedField::from_message_bytes`.  The source reads the two
length fields with direct (panicking) indexing; all call sites hand it a
message of at least 12 octets (`field_length ≥ 16`), where `byteAt` agrees. -/
def UnparsedEncryptedField.from_message_bytes (message_bytes : List Nat) :
    Except PacketParsingError UnparsedEncryptedField :=
  let value := message_bytes
  let nonce_length := readU16 value 0
  let ciphertext_length := readU16 value 2
  if 4 + next_multiple_of nonce_length 4 + next_multiple_of ciphertext_length 4 ≠
      next_multiple_of value.length 4 then
    .error .IncorrectLength
  else
    let ciphertext_start := 4 + next_multiple_of nonce_length 4
    match sliceGet value 4 (4 + nonce_length) with
    | none => .error .IncorrectLength
    | some nonce_bytes =>
      match sliceGet value (4 + nonce_length) ciphertext_start with
      | none => .error .IncorrectLength
      | some nonce_padding =>
        if nonce_padding.any (fun b => b ≠ 0) then .error .IncorrectLength
        else
          match sliceGet value ciphertext_start (ciphertext_start + ciphertext_length) with
          | none => .error .IncorrectLength
          | some ciphertext =>
            if nonce_bytes.length ≠ 16 then .error .MalformedNonce
            else .ok { nonce := nonce_bytes, ciphertext := ciphertext }

inductive ExtensionFieldTypeId
  | UniqueIdentifier
  | NtsCookie
  | NtsCookiePlaceholder
  | NtsEncryptedField
  | Unknown (type_id : Nat)
deriving DecidableEq, Repr

def ExtensionFieldTypeId.from_type_id (type_id : Nat) : ExtensionFieldTypeId :=
  match type_id with
  | 0x104 => .UniqueIdentifier
  | 0x204 => .NtsCookie
  | 0x304 => .NtsCookiePlaceholder
  | 0x404 => .NtsEncryptedField
  | _ => .Unknown type_id

/-- `UnparsedExtensionField<'a>`: one extension-field frame, header stripped,
not yet decoded into a variant. -/
structure UnparsedExtensionField where
  type_id : ExtensionFieldTypeId
  message_bytes : List Nat
deriving DecidableEq, Repr

def UnparsedExtensionField.MINIMUM_SIZE : Nat := 16

def UnparsedExtensionField.wire_length (u : UnparsedExtensionField) : Nat :=
  4 + next_multiple_of u.message_bytes.length 4

/-- `UnparsedExtensionField::deserialize`: parse one frame from the start of
`data` (the whole remaining buffer). -/
def UnparsedExtensionField.deserialize (data : List Nat) :
    Except PacketParsingError UnparsedExtensionField :=
  if data.length < 4 ∨ data.length % 4 ≠ 0 then .error .IncorrectLength
  else
    let type_id := readU16 data 0
    let field_length := readU16 data 2
    if field_length < UnparsedExtensionField.MINIMUM_SIZE then .error .IncorrectLength
    else
      match sliceGet data 4 field_length with
      | none => .error .IncorrectLength
      | some value =>
        let padding := listSlice data field_length (next_multiple_of field_length 4)
        if padding.any (fun b => b ≠ 0) then .error .IncorrectLength
        else .ok { type_id := ExtensionFieldTypeId.from_type_id type_id, message_bytes := value }

/-- `ExtensionFieldData<'a>`: the three trust classes of extension fields. -/
structure ExtensionFieldData where
  authenticated : List ExtensionField
  encrypted : List ExtensionField
  untrusted : List ExtensionField
deriving DecidableEq, Repr

def ExtensionFieldData.default : ExtensionFieldData :=
  { authenticated := [], encrypted := [], untrusted := [] }

/-- The fixed nonce `b"any odd nonce$$$"` used by `ExtensionFieldData::serialize`. -/
def nts_nonce : List Nat :=
  [97, 110, 121, 32, 111, 100, 100, 32, 110, 111, 110, 99, 101, 36, 36, 36]

/-- `ExtensionFieldData::serialize`: authenticated fields, then (when either
authenticated or encrypted is non-empty) the encrypted container, then
untrusted fields.  `packet_so_far` is everything already written before this
call (the packet header). -/
def ExtensionFieldData.serialize (efd : ExtensionFieldData) (packet_so_far : List Nat)
    (cipher : Cipher) : List Nat :=
  let auth := serializeFields efd.authenticated
  let encPart :=
    if efd.authenticated.isEmpty = false ∨ efd.encrypted.isEmpty = false then
      ExtensionField.encode_encryped (packet_so_far ++ auth) efd.encrypted cipher nts_nonce
    else []
  auth ++ encPart ++ serializeFields efd.untrusted

/-- `ExtensionFieldData::decode_basic_field`: decode a non-encrypted frame
into its variant; `none` signals the encrypted container. -/
def ExtensionFieldData.decode_basic_field (unparsed : UnparsedExtensionField) :
    Except PacketParsingError (Option ExtensionField) :=
  let message := unparsed.message_bytes
  match unparsed.type_id with
  | .NtsEncryptedField => .ok none
  | .UniqueIdentifier =>
    match ExtensionField.decode_unique_identifier message with
    | .error e => .error e
    | .ok field => .ok (some field)
  | .NtsCookie =>
    match ExtensionField.decode_nts_cookie message with
    | .error e => .error e
    | .ok field => .ok (some field)
  | .NtsCookiePlaceholder =>
    match ExtensionField.decode_nts_cookie_placeholder message with
    | .error e => .error e
    | .ok field => .ok (some field)
  | .Unknown type_id =>
    match ExtensionField.decode_unknown type_id message with
    | .error e => .error e
    | .ok field => .ok (some field)

def Mac.MAXIMUM_SIZE : Nat := 28

/-- `Mac<'a>`: legacy MAC trailer, a 4-octet key id plus raw MAC bytes. -/
structure Mac where
  keyid : Nat
  mac : List Nat
deriving DecidableEq, Repr

def Mac.serialize (m : Mac) : List Nat := u32_be m.keyid ++ m.mac

def Mac.deserialize (data : List Nat) : Except PacketParsingError Mac :=
  if data.length < 4 ∨ data.length ≥ Mac.MAXIMUM_SIZE then .error .IncorrectLength
  else .ok { keyid := readU32 data 0, mac := data.drop 4 }

/-- First `while` loop of `ExtensionFieldData::deserialize` (state PRE of the
spec's state machine): collect fields into `untrusted` until either fewer than
`Mac::MAXIMUM_SIZE` octets remain or an encrypted container is found, in
which case the loop breaks, recording the container and the packet prefix
(the associated data).  `fuel` bounds the iteration count; callers pass
`data.length`, which exceeds it (each iteration consumes at least 4 octets). -/
def ExtensionFieldData.deserialize_pre (data : List Nat) (fuel offset : Nat)
    (untrusted : List ExtensionField) :
    Except PacketParsingError
      (List ExtensionField × Option (UnparsedEncryptedField × List Nat) × Nat) :=
  match fuel with
  | 0 => .ok (untrusted, none, offset)
  | fuel + 1 =>
    if data.length - offset ≥ Mac.MAXIMUM_SIZE then
      match UnparsedExtensionField.deserialize (data.drop offset) with
      | .error e => .error e
      | .ok unparsed =>
        match ExtensionFieldData.decode_basic_field unparsed with
        | .error e => .error e
        | .ok none =>
          match UnparsedEncryptedField.from_message_bytes unparsed.message_bytes with
          | .error e => .error e
          | .ok field =>
            .ok (untrusted, some (field, data.take offset), offset + unparsed.wire_length)
        | .ok (some field) =>
          ExtensionFieldData.deserialize_pre data fuel (offset + unparsed.wire_length)
            (untrusted ++ [field])
    else .ok (untrusted, none, offset)

/-- Second `while` loop of `ExtensionFieldData::deserialize` (state POST):
collect the fields after the encrypted container; a second container is
`MalformedNtsExtensionFields`. -/
def ExtensionFieldData.deserialize_post (data : List Nat) (fuel offset : Nat)
    (untrusted : List ExtensionField) :
    Except PacketParsingError (List ExtensionField × Nat) :=
  match fuel with
  | 0 => .ok (untrusted, offset)
  | fuel + 1 =>
    if data.length - offset ≥ Mac.MAXIMUM_SIZE then
      match UnparsedExtensionField.deserialize (data.drop offset) with
      | .error e => .error e
      | .ok unparsed =>
        match ExtensionFieldData.decode_basic_field unparsed with
        | .error e => .error e
        | .ok none => .error .MalformedNtsExtensionFields
        | .ok (some field) =>
          ExtensionFieldData.deserialize_post data fuel (offset + unparsed.wire_length)
            (untrusted ++ [field])
    else .ok (untrusted, offset)

/-- Plaintext `while` loop of `ExtensionFieldData::deserialize` (state
CRYPTO): parse the decrypted plaintext into the `encrypted` class; a nested
container is `MalformedNtsExtensionFields`.  Unlike PRE/POST this loop runs
until the plaintext is exhausted (no room is reserved for a MAC). -/
def ExtensionFieldData.deserialize_encrypted (plaintext : List Nat) (fuel offset : Nat)
    (encrypted : List ExtensionField) :
    Except PacketParsingError (List ExtensionField) :=
  match fuel with
  | 0 => .ok encrypted
  | fuel + 1 =>
    if offset < plaintext.length then
      match UnparsedExtensionField.deserialize (plaintext.drop offset) with
      | .error e => .error e
      | .ok unparsed =>
        match ExtensionFieldData.decode_basic_field unparsed with
        | .error e => .error e
        | .ok none => .error .MalformedNtsExtensionFields
        | .ok (some field) =>
          ExtensionFieldData.deserialize_encrypted plaintext fuel
            (offset + unparsed.wire_length) (encrypted ++ [field])
    else .ok encrypted

/-- `ExtensionFieldData::deserialize`: walk the extension fields of a v4
packet starting at `header_size`, decrypting the (at most one) encrypted
container and promoting the fields before it to `authenticated`.  Returns the
container and the total offset consumed. -/
def ExtensionFieldData.deserialize (data : List Nat) (header_size : Nat) (cipher : Cipher) :
    Except PacketParsingError (ExtensionFieldData × Nat) :=
  match ExtensionFieldData.deserialize_pre data data.length header_size [] with
  | .error e => .error e
  | .ok (untrusted, none, offset) =>
    match ExtensionFieldData.deserialize_post data data.length offset untrusted with
    | .error e => .error e
    | .ok (untrusted2, offset2) =>
      .ok ({ authenticated := [], encrypted := [], untrusted := untrusted2 }, offset2)
  | .ok (untrusted, some (encrypted_field, packet_so_far), offset) =>
    match cipher.decrypt encrypted_field.nonce encrypted_field.ciphertext packet_so_far with
    | none => .error .DecryptError
    | some plaintext =>
      match ExtensionFieldData.deserialize_encrypted plaintext plaintext.length 0 [] with
      | .error e => .error e
      | .ok encfields =>
        match ExtensionFieldData.deserialize_post data data.length offset [] with
        | .error e => .error e
        | .ok (untrusted2, offset2) =>
          .ok ({ authenticated := untrusted, encrypted := encfields,
                 untrusted := untrusted2 }, offset2)

/-- `NtpHeaderV3V4`: the 48-octet fixed header.  `poll` and `precision` are
`i8` in the source, written back with `as u8`; both directions are the
identity on the raw octet, so they are carried here as the raw octet.
Modelled from the spec: `NtpDuration`, `NtpTimestamp` and `ReferenceId` are
defined outside `src/`; the spec treats them as opaque fixed-size big-endian
byte encodings (widths 4, 8 and 4), so their `from_bits`/`to_bits`
conversions are the identity on the byte lists stored here. -/
structure NtpHeaderV3V4 where
  leap : NtpLeapIndicator
  mode : NtpAssociationMode
  stratum : Nat
  poll : Nat
  precision : Nat
  root_delay : List Nat
  root_dispersion : List Nat
  reference_id : List Nat
  reference_timestamp : List Nat
  origin_timestamp : List Nat
  receive_timestamp : List Nat
  transmit_timestamp : List Nat
deriving DecidableEq, Repr

attribute [ext] NtpHeaderV3V4

def NtpHeaderV3V4.LENGTH : Nat := 48

/-- `NtpHeaderV3V4::new`: the empty header (defaults of the opaque types are
their all-zero encodings, per the spec's fixed-width treatment). -/
def NtpHeaderV3V4.new : NtpHeaderV3V4 :=
  { leap := .NoWarning
    mode := .Client
    stratum := 0
    poll := 0
    precision := 0
    root_delay := List.replicate 4 0
    root_dispersion := List.replicate 4 0
    reference_id := List.replicate 4 0
    reference_timestamp := List.replicate 8 0
    origin_timestamp := List.replicate 8 0
    receive_timestamp := List.replicate 8 0
    transmit_timestamp := List.replicate 8 0 }

/-- `NtpHeaderV3V4::deserialize`. -/
def NtpHeaderV3V4.deserialize (data : List Nat) :
    Except PacketParsingError (NtpHeaderV3V4 × Nat) :=
  if data.length < NtpHeaderV3V4.LENGTH then .error .IncorrectLength
  else
    .ok
      ({ leap := NtpLeapIndicator.from_bits ((byteAt data 0 &&& 0xC0) >>> 6)
         mode := NtpAssociationMode.from_bits (byteAt data 0 &&& 0x07)
         stratum := byteAt data 1
         poll := byteAt data 2
         precision := byteAt data 3
         root_delay := listSlice data 4 8
         root_dispersion := listSlice data 8 12
         reference_id := listSlice data 12 16
         reference_timestamp := listSlice data 16 24
         origin_timestamp := listSlice data 24 32
         receive_timestamp := listSlice data 32 40
         transmit_timestamp := listSlice data 40 48 }, NtpHeaderV3V4.LENGTH)

/-- `NtpHeaderV3V4::serialize`: writes exactly 48 octets; the first octet
packs leap, the chosen `version` and the mode (`u8` arithmetic). -/
def NtpHeaderV3V4.serialize (h : NtpHeaderV3V4) (version : Nat) : List Nat :=
  [h.leap.to_bits <<< 6 ||| (version <<< 3) % 256 ||| h.mode.to_bits] ++
    [h.stratum % 256, h.poll % 256, h.precision % 256] ++
    h.root_delay ++ h.root_dispersion ++ h.reference_id ++
    h.reference_timestamp ++ h.origin_timestamp ++ h.receive_timestamp ++
    h.transmit_timestamp

inductive NtpHeader
  | V3 (h : NtpHeaderV3V4)
  | V4 (h : NtpHeaderV3V4)
deriving DecidableEq, Repr

structure NtpPacket where
  header : NtpHeader
  efdata : ExtensionFieldData
  mac : Option Mac
deriving DecidableEq, Repr

/-- `NtpPacket::deserialize`. -/
def NtpPacket.deserialize (data : List Nat) (cipher : Cipher) :
    Except PacketParsingError NtpPacket :=
  if data.isEmpty then .error .IncorrectLength
  else
    let version := (byteAt data 0 &&& 0x38) >>> 3
    if version = 3 then
      match NtpHeaderV3V4.deserialize data with
      | .error e => .error e
      | .ok (header, header_size) =>
        if header_size ≠ data.length then
          match Mac.deserialize (data.drop header_size) with
          | .error e => .error e
          | .ok mac =>
            .ok { header := .V3 header, efdata := ExtensionFieldData.default, mac := some mac }
        else .ok { header := .V3 header, efdata := ExtensionFieldData.default, mac := none }
    else if version = 4 then
      match NtpHeaderV3V4.deserialize data with
      | .error e => .error e
      | .ok (header, header_size) =>
        match ExtensionFieldData.deserialize data header_size cipher with
        | .error e => .error e
        | .ok (efdata, header_plus_fields_len) =>
          if header_plus_fields_len ≠ data.length then
            match Mac.deserialize (data.drop header_plus_fields_len) with
            | .error e => .error e
            | .ok mac => .ok { header := .V4 header, efdata := efdata, mac := some mac }
          else .ok { header := .V4 header, efdata := efdata, mac := none }
    else .error (.InvalidVersion version)

/-- `NtpPacket::serialize`: header with the packet's wire version, then (v4
only) the extension fields, then the optional MAC trailer. -/
def NtpPacket.serialize (p : NtpPacket) (cipher : Cipher) : List Nat :=
  match p.header with
  | .V3 header =>
    NtpHeaderV3V4.serialize header 3 ++
      (match p.mac with | some mac => mac.serialize | none => [])
  | .V4 header =>
    let hdr := NtpHeaderV3V4.serialize header 4
    hdr ++ p.efdata.serialize hdr cipher ++
      (match p.mac with | some mac => mac.serialize | none => [])

/-- `RequestIdentifier`: the transmit timestamp of an outgoing poll, kept for
validating the response. -/
structure RequestIdentifier where
  expected_origin_timestamp : List Nat
deriving DecidableEq, Repr

/-- Modelled from the spec: `TimeSnapshot` (inside `SystemSnapshot`) lives
outside `src/`; the spec uses only its precision (as a log₂ byte) and the two
root durations, all treated as opaque encodings. -/
structure TimeSnapshot where
  precision_log2 : Nat
  root_delay : List Nat
  root_dispersion : List Nat
deriving DecidableEq, Repr

/-- Modelled from the spec: `SystemSnapshot` lives outside `src/`; the codec
reads its stratum, reference id and time snapshot. -/
structure SystemSnapshot where
  stratum : Nat
  reference_id : List Nat
  time_snapshot : TimeSnapshot
deriving DecidableEq, Repr

/-- Modelled from the spec: the `NtpClock` trait lives outside `src/`; the
codec only calls `clock.now()` (whose failure the source turns into a panic,
outside this model) to obtain the transmit timestamp. -/
structure NtpClock where
  now : List Nat
deriving DecidableEq, Repr

/-- `NtpHeaderV3V4::timestamp_response`: the server response template. -/
def NtpHeaderV3V4.timestamp_response (system : SystemSnapshot) (input : NtpHeaderV3V4)
    (recv_timestamp : List Nat) (clock : NtpClock) : NtpHeaderV3V4 :=
  { NtpHeaderV3V4.new with
    mode := .Server
    stratum := system.stratum
    origin_timestamp := input.transmit_timestamp
    receive_timestamp := recv_timestamp
    reference_id := system.reference_id
    poll := input.poll
    precision := system.time_snapshot.precision_log2
    root_delay := system.time_snapshot.root_delay
    root_dispersion := system.time_snapshot.root_dispersion
    transmit_timestamp := clock.now }

/-- `NtpPacket::timestamp_response`: wraps the header-level template in the
input's wire version with empty extension data and no MAC. -/
def NtpPacket.timestamp_response (system : SystemSnapshot) (input : NtpPacket)
    (recv_timestamp : List Nat) (clock : NtpClock) : NtpPacket :=
  match input.header with
  | .V3 header =>
    { header := .V3 (NtpHeaderV3V4.timestamp_response system header recv_timestamp clock)
      efdata := ExtensionFieldData.default, mac := none }
  | .V4 header =>
    { header := .V4 (NtpHeaderV3V4.timestamp_response system header recv_timestamp clock)
      efdata := ExtensionFieldData.default, mac := none }

/-- `NtpPacket::valid_server_response`: origin-timestamp equality check. -/
def NtpPacket.valid_server_response (p : NtpPacket) (identifier : RequestIdentifier) : Bool :=
  match p.header with
  | .V3 header => header.origin_timestamp == identifier.expected_origin_timestamp
  | .V4 header => header.origin_timestamp == identifier.expected_origin_timestamp

/-- A concrete cipher with the interface shape of AES-SIV (ciphertext is
plaintext plus a 16-octet tag; decryption strips it): used to instantiate
witnesses.  Its encrypt/decrypt functions are mutually inverse by
construction. -/
def sivCipher : Cipher :=
  { encrypt := fun _ msg _ => msg ++ List.replicate 16 0
    decrypt := fun _ ct _ => some (ct.take (ct.length - 16)) }

/-- A concrete cipher whose ciphertext equals the plaintext: used to build
byte-level test packets whose container contents are literal bytes. -/
def idCipher : Cipher :=
  { encrypt := fun _ msg _ => msg
    decrypt := fun _ ct _ => some ct }

/-- A 24-octet encrypted-container frame with a 16-octet all-zero nonce and
an empty ciphertext. -/
def containerFrame24 : List Nat :=
  [0x04, 0x04, 0, 24, 0, 16, 0, 0] ++ List.replicate 16 0

/-- A v4 packet holding two encrypted-container frames (the second followed
by 4 spare octets so the POST loop still sees a full frame's worth of
input). -/
def twoContainersPacket : List Nat :=
  (0x23 :: List.replicate 47 0) ++ containerFrame24 ++ containerFrame24 ++ [0, 0, 0, 0]

/-- A 48-octet encrypted-container frame whose ciphertext is itself a
container frame: under `idCipher` its plaintext parses to a nested
container. -/
def outerContainerFrame : List Nat :=
  [0x04, 0x04, 0, 48, 0, 16, 0, 24] ++ List.replicate 16 0 ++ containerFrame24

/-- A v4 packet whose (identity-cipher) decrypted plaintext contains an
encrypted-container frame. -/
def nestedContainerPacket : List Nat :=
  (0x23 :: List.replicate 47 0) ++ outerContainerFrame

/-- A v4 packet with a single 16-octet-frame cookie extension field and no
MAC: its serialization leaves only 16 octets after the header, which the
parser reads back as a MAC trailer instead of an extension field. -/
def smallCookiePacket : NtpPacket :=
  { header := .V4 NtpHeaderV3V4.new
    efdata := { authenticated := [], encrypted := [],
                untrusted := [.NtsCookie (List.replicate 12 1)] }
    mac := none }

/-- Fields whose encoded frame the parser accepts back unchanged: the body
meets the per-variant minimum (32 for UniqueIdentifier, else 12 so that
`field_length ≥ 16`), fits a `u16` length field, and an `Unknown` field keeps
a type id that is not one of the four assigned ids. -/
def validField : ExtensionField → Bool
  | .UniqueIdentifier d => decide (32 ≤ d.length ∧ d.length ≤ 65531)
  | .NtsCookie d => decide (12 ≤ d.length ∧ d.length ≤ 65531)
  | .NtsCookiePlaceholder cl => decide (12 ≤ cl ∧ cl ≤ 65531)
  | .Unknown t d =>
    decide (12 ≤ d.length ∧ d.length ≤ 65531 ∧ t < 65536 ∧
      t ≠ 0x104 ∧ t ≠ 0x204 ∧ t ≠ 0x304 ∧ t ≠ 0x404)

/-- The numeric type id a field's encoder writes into its frame header. -/
def frameTid : ExtensionField → Nat
  | .UniqueIdentifier _ => 0x104
  | .NtsCookie _ => 0x204
  | .NtsCookiePlaceholder _ => 0x304
  | .Unknown t _ => t % 65536

/-- The type id the parser assigns to a field's own frame. -/
def frameTypeId : ExtensionField → ExtensionFieldTypeId
  | .UniqueIdentifier _ => .UniqueIdentifier
  | .NtsCookie _ => .NtsCookie
  | .NtsCookiePlaceholder _ => .NtsCookiePlaceholder
  | .Unknown t _ => .Unknown (t % 65536)

/-- The message bytes the parser extracts from a field's own frame. -/
def frameBody : ExtensionField → List Nat
  | .UniqueIdentifier d => d
  | .NtsCookie d => d
  | .NtsCookiePlaceholder cl => List.replicate (cl % 65536) 0
  | .Unknown _ d => d

/-- The byte form of an encrypted-container frame with the given nonce and
ciphertext (what `encode_encryped` emits after computing the ciphertext). -/
def encryptedFrame (nonce ct : List Nat) : List Nat :=
  u16_be 0x0404 ++
    u16_be ((8 + next_multiple_of (nonce.length + ct.length) 4) % 65536) ++
    u16_be (nonce.length % 65536) ++ u16_be (ct.length % 65536) ++
    nonce ++ List.replicate (next_multiple_of nonce.length 4 - nonce.length) 0 ++
    ct ++ List.replicate (next_multiple_of ct.length 4 - ct.length) 0

/-- The message bytes of an encrypted-container frame (the frame minus its
4-octet type/length header). -/
def encryptedBody (nonce ct : List Nat) : List Nat :=
  u16_be (nonce.length % 65536) ++ u16_be (ct.length % 65536) ++
    nonce ++ List.replicate (next_multiple_of nonce.length 4 - nonce.length) 0 ++
    ct ++ List.replicate (next_multiple_of ct.length 4 - ct.length) 0

/-- Header values whose serialization parses back unchanged: byte-size fields
fit one octet and the opaque encodings have their wire widths. -/
def wellFormedHeader (h : NtpHeaderV3V4) : Bool :=
  decide (h.stratum < 256 ∧ h.poll < 256 ∧ h.precision < 256 ∧
    h.root_delay.length = 4 ∧ h.root_dispersion.length = 4 ∧
    h.reference_id.length = 4 ∧ h.reference_timestamp.length = 8 ∧
    h.origin_timestamp.length = 8 ∧ h.receive_timestamp.length = 8 ∧
    h.transmit_timestamp.length = 8)

/-- MAC values whose serialization parses back unchanged: key id fits a
`u32` and the trailer stays under `Mac::MAXIMUM_SIZE`. -/
def wellFormedMac : Option Mac → Bool
  | none => true
  | some m => decide (m.keyid < 4294967296 ∧ m.mac.length ≤ 23)

/-- The bytes a packet's optional MAC trailer contributes. -/
def macBytes : Option Mac → List Nat
  | none => []
  | some m => m.serialize

/-- A 32-octet unique-identifier field (frame length 36 ≥ 28). -/
def uidFieldA : ExtensionField := .UniqueIdentifier (List.replicate 32 3)

/-- A second 32-octet unique-identifier field. -/
def uidFieldB : ExtensionField := .UniqueIdentifier (List.replicate 32 9)

/-- A 12-octet cookie field (frame length 16). -/
def cookieFieldA : ExtensionField := .NtsCookie (List.replicate 12 7)

/-- A well-formed v4 packet with one untrusted field and a MAC, used to
instantiate round-trip statements. -/
def wPacket : NtpPacket :=
  { header := .V4 NtpHeaderV3V4.new
    efdata := { authenticated := [], encrypted := [], untrusted := [uidFieldA] }
    mac := some { keyid := 1, mac := [2, 3, 4, 5] } }

/-- A bare 48-octet v4 header (leap 0, version 4, mode 3, all else zero). -/
def headerOnly48 : List Nat := 0x23 :: List.replicate 47 0

/-- Byte form of a v4 packet with one authenticated field, an encrypted
container whose (identity-cipher) plaintext is one cookie field, and one
untrusted field after the container. -/
def c2bytes : List Nat :=
  headerOnly48 ++ serializeFields [uidFieldA] ++
    encryptedFrame (List.replicate 16 0) (serializeFields [cookieFieldA]) ++
    serializeFields [uidFieldB]

/-! ## Support lemmas: rounding, bytes, slices -/

theorem next_multiple_of_four_eq (n : Nat) : next_multiple_of n 4 = n + (4 - n % 4) % 4 := by
  rcases h : n % 4 with _ | r
  · simp [next_multiple_of, h]
  · have h4 : n % 4 < 4 := Nat.mod_lt _ (by omega)
    simp [next_multiple_of, h]
    omega

theorem next_multiple_of_four_mod (n : Nat) : next_multiple_of n 4 % 4 = 0 := by
  rw [next_multiple_of_four_eq]; omega

theorem le_next_multiple_of_four (n : Nat) : n ≤ next_multiple_of n 4 := by
  rw [next_multiple_of_four_eq]; omega

theorem next_multiple_of_four_le (n : Nat) : next_multiple_of n 4 ≤ n + 3 := by
  rw [next_multiple_of_four_eq]; omega

theorem next_multiple_of_four_of_mod (n : Nat) (h : n % 4 = 0) :
    next_multiple_of n 4 = n := by
  rw [next_multiple_of_four_eq]; omega

theorem next_multiple_of_four_add_left (a b : Nat) (h : a % 4 = 0) :
    next_multiple_of (a + b) 4 = a + next_multiple_of b 4 := by
  rw [next_multiple_of_four_eq, next_multiple_of_four_eq]; omega

theorem next_multiple_of_four_le_of_le (a b : Nat) (ha : a ≤ b) (hb : b % 4 = 0) :
    next_multiple_of a 4 ≤ b := by
  rw [next_multiple_of_four_eq]; omega

@[simp] theorem byteAt_nil (n : Nat) : byteAt [] n = 0 := by
  cases n <;> rfl

@[simp] theorem byteAt_cons_zero (x : Nat) (l : List Nat) : byteAt (x :: l) 0 = x := rfl

@[simp] theorem byteAt_cons_succ (x : Nat) (l : List Nat) (n : Nat) :
    byteAt (x :: l) (n + 1) = byteAt l n := rfl

theorem byteAt_append_right (l r : List Nat) (i : Nat) :
    byteAt (l ++ r) (l.length + i) = byteAt r i := by
  induction l with
  | nil => simp
  | cons x xs ih => simpa [Nat.succ_add] using ih

theorem byteAt_mem (l : List Nat) (i : Nat) (h : i < l.length) : byteAt l i ∈ l := by
  unfold byteAt
  rw [List.getD_eq_getElem l 0 h]
  exact List.getElem_mem h

theorem byteAt_lt (l : List Nat) (i : Nat) (h : ∀ b ∈ l, b < 256) : byteAt l i < 256 ∨ byteAt l i = 0 := by
  by_cases hi : i < l.length
  · exact Or.inl (h _ (byteAt_mem l i hi))
  · unfold byteAt
    rw [List.getD_eq_default]
    · exact Or.inr rfl
    · omega

theorem sliceGet_eq_some {l s : List Nat} {a b : Nat} (h : sliceGet l a b = some s) :
    s = listSlice l a b ∧ a ≤ b ∧ b ≤ l.length ∧ s.length = b - a := by
  unfold sliceGet at h
  split at h
  · rename_i hc
    cases h
    refine ⟨rfl, hc.1, hc.2, ?_⟩
    unfold listSlice
    rw [List.length_take, List.length_drop]
    omega
  · cases h

theorem sliceGet_of_le {l : List Nat} {a b : Nat} (h1 : a ≤ b) (h2 : b ≤ l.length) :
    sliceGet l a b = some (listSlice l a b) := by
  unfold sliceGet
  rw [if_pos ⟨h1, h2⟩]

theorem listSlice_length {l : List Nat} {a b : Nat} (h : b ≤ l.length) :
    (listSlice l a b).length = b - a := by
  unfold listSlice
  rw [List.length_take, List.length_drop]
  omega

theorem listSlice_append_listSlice (l : List Nat) (a b c : Nat) (h1 : a ≤ b) (h2 : b ≤ c) :
    listSlice l a b ++ listSlice l b c = listSlice l a c := by
  unfold listSlice
  rw [show l.drop b = (l.drop a).drop (b - a) by rw [List.drop_drop]; congr 1; omega]
  rw [show c - a = (b - a) + (c - b) by omega, List.take_add]

theorem listSlice_zero (l : List Nat) (n : Nat) : listSlice l 0 n = l.take n := by
  simp [listSlice]

theorem listSlice_singleton (l : List Nat) (a : Nat) (h : a < l.length) :
    listSlice l a (a + 1) = [byteAt l a] := by
  unfold listSlice byteAt
  rw [Nat.add_sub_cancel_left]
  rw [List.getD_eq_getElem l 0 h]
  rw [List.take_one]
  rw [List.head?_drop]
  simp [List.getElem?_eq_getElem h]

theorem u16_mod_recompose (v : Nat) (h : v < 65536) : v / 256 % 256 * 256 + v % 256 = v := by
  omega

/-! ## Loop exit lemmas -/

theorem deserialize_pre_stop (data : List Nat) (fuel offset : Nat)
    (untrusted : List ExtensionField) (h : data.length - offset < 28) :
    ExtensionFieldData.deserialize_pre data fuel offset untrusted =
      .ok (untrusted, none, offset) := by
  cases fuel with
  | zero => rfl
  | succ n =>
    unfold ExtensionFieldData.deserialize_pre
    rw [if_neg (by unfold Mac.MAXIMUM_SIZE; omega)]

theorem deserialize_post_stop (data : List Nat) (fuel offset : Nat)
    (untrusted : List ExtensionField) (h : data.length - offset < 28) :
    ExtensionFieldData.deserialize_post data fuel offset untrusted =
      .ok (untrusted, offset) := by
  cases fuel with
  | zero => rfl
  | succ n =>
    unfold ExtensionFieldData.deserialize_post
    rw [if_neg (by unfold Mac.MAXIMUM_SIZE; omega)]

theorem deserialize_encrypted_stop (plaintext : List Nat) (fuel offset : Nat)
    (encrypted : List ExtensionField) (h : plaintext.length ≤ offset) :
    ExtensionFieldData.deserialize_encrypted plaintext fuel offset encrypted =
      .ok encrypted := by
  cases fuel with
  | zero => rfl
  | succ n =>
    unfold ExtensionFieldData.deserialize_encrypted
    rw [if_neg (by omega)]

theorem efd_deserialize_no_fields (data : List Nat) (header_size : Nat) (cipher : Cipher)
    (h : data.length - header_size < 28) :
    ExtensionFieldData.deserialize data header_size cipher =
      .ok ({ authenticated := [], encrypted := [], untrusted := [] }, header_size) := by
  unfold ExtensionFieldData.deserialize
  rw [deserialize_pre_stop data _ _ _ h]
  dsimp only
  rw [deserialize_post_stop data _ _ _ h]

/-! ## Version dispatch and misalignment helpers -/

theorem deserialize_invalid_version (data : List Nat) (cipher : Cipher) (hne : data ≠ [])
    (h3 : (byteAt data 0 &&& 0x38) >>> 3 ≠ 3) (h4 : (byteAt data 0 &&& 0x38) >>> 3 ≠ 4) :
    NtpPacket.deserialize data cipher =
      .error (.InvalidVersion ((byteAt data 0 &&& 0x38) >>> 3)) := by
  unfold NtpPacket.deserialize
  rw [if_neg (by simp [List.isEmpty_iff, hne])]
  dsimp only
  rw [if_neg h3, if_neg h4]

theorem uef_deserialize_misaligned (data : List Nat) (h : data.length % 4 ≠ 0) :
    UnparsedExtensionField.deserialize data = .error .IncorrectLength := by
  unfold UnparsedExtensionField.deserialize
  rw [if_pos (Or.inr h)]

theorem deserialize_pre_misaligned (data : List Nat) (fuel offset : Nat)
    (acc : List ExtensionField) (h28 : 28 ≤ data.length - offset) (hfuel : 1 ≤ fuel)
    (h4 : (data.length - offset) % 4 ≠ 0) :
    ExtensionFieldData.deserialize_pre data fuel offset acc = .error .IncorrectLength := by
  cases fuel with
  | zero => omega
  | succ n =>
    unfold ExtensionFieldData.deserialize_pre
    rw [if_pos (by unfold Mac.MAXIMUM_SIZE; omega)]
    rw [uef_deserialize_misaligned (data.drop offset) (by rw [List.length_drop]; exact h4)]

theorem efd_deserialize_error_of_pre (data : List Nat) (header_size : Nat) (cipher : Cipher)
    (e : PacketParsingError)
    (h : ExtensionFieldData.deserialize_pre data data.length header_size [] = .error e) :
    ExtensionFieldData.deserialize data header_size cipher = .error e := by
  unfold ExtensionFieldData.deserialize
  rw [h]

/-! ## Claim theorems: version gating, MAC bounds, alignment -/

/-- Claim C6: for every non-empty input whose first-octet version field is
not 3 or 4, `NtpPacket::deserialize` fails with `InvalidVersion` carrying
that version; for versions 3 and 4 with otherwise valid bytes (a full
48-octet header), parsing succeeds. -/
theorem C6_version_gating (data : List Nat) (cipher : Cipher) (hne : data ≠ []) :
    ((byteAt data 0 &&& 0x38) >>> 3 ≠ 3 → (byteAt data 0 &&& 0x38) >>> 3 ≠ 4 →
      NtpPacket.deserialize data cipher =
        .error (.InvalidVersion ((byteAt data 0 &&& 0x38) >>> 3))) ∧
    (data.length = 48 →
      ((byteAt data 0 &&& 0x38) >>> 3 = 3 ∨ (byteAt data 0 &&& 0x38) >>> 3 = 4) →
      ∃ p, NtpPacket.deserialize data cipher = .ok p) := by
  constructor
  · exact deserialize_invalid_version data cipher hne
  · intro hlen hv
    unfold NtpPacket.deserialize
    rw [if_neg (by simp [List.isEmpty_iff, hne])]
    dsimp only
    rcases hv with hv | hv
    · rw [if_pos hv]
      unfold NtpHeaderV3V4.deserialize NtpHeaderV3V4.LENGTH
      rw [if_neg (by omega)]
      dsimp only
      rw [if_neg (by omega)]
      exact ⟨_, rfl⟩
    · rw [if_neg (by omega), if_pos hv]
      unfold NtpHeaderV3V4.deserialize NtpHeaderV3V4.LENGTH
      rw [if_neg (by omega)]
      dsimp only
      rw [efd_deserialize_no_fields data 48 cipher (by omega)]
      dsimp only
      rw [if_neg (by omega)]
      exact ⟨_, rfl⟩

/-- Witness for C6 at concrete inputs: version 0 is rejected as
`InvalidVersion 0`, and a bare version-4 header parses. -/
theorem C6_version_gating_witness :
    NtpPacket.deserialize (0x04 :: List.replicate 47 0) idCipher =
      .error (.InvalidVersion 0) ∧
    (∃ p, NtpPacket.deserialize headerOnly48 idCipher = .ok p) := by
  constructor
  · exact (C6_version_gating (0x04 :: List.replicate 47 0) idCipher (by decide)).1
      (by decide) (by decide)
  · exact (C6_version_gating headerOnly48 idCipher (by decide)).2 (by decide) (by decide)

/-- Claim C7: a MAC trailer of length in [4, 28) parses into the 4-octet
big-endian key id plus the remaining MAC bytes; a length in {1, 2, 3} or
at least 28 fails with `IncorrectLength`. -/
theorem C7_mac_trailer_bounds (data : List Nat) :
    (4 ≤ data.length → data.length < 28 →
      Mac.deserialize data = .ok { keyid := readU32 data 0, mac := data.drop 4 }) ∧
    ((data.length = 1 ∨ data.length = 2 ∨ data.length = 3 ∨ 28 ≤ data.length) →
      Mac.deserialize data = .error .IncorrectLength) := by
  constructor
  · intro h1 h2
    unfold Mac.deserialize
    rw [if_neg (by unfold Mac.MAXIMUM_SIZE; omega)]
  · intro h
    unfold Mac.deserialize
    rw [if_pos (by unfold Mac.MAXIMUM_SIZE; omega)]

/-- Witness for C7 at concrete trailers of lengths 5 and 28. -/
theorem C7_mac_trailer_bounds_witness :
    Mac.deserialize [0, 0, 0, 1, 5] = .ok { keyid := 1, mac := [5] } ∧
    Mac.deserialize (List.replicate 28 0) = .error .IncorrectLength :=
  ⟨(C7_mac_trailer_bounds [0, 0, 0, 1, 5]).1 (by decide) (by decide),
   (C7_mac_trailer_bounds (List.replicate 28 0)).2 (by decide)⟩

/-- Claim C9: the version check runs before any length check, so a non-empty
input shorter than the 48-octet header with version not in {3, 4} reports
`InvalidVersion`, never `IncorrectLength`. -/
theorem C9_version_check_precedes_length (data : List Nat) (cipher : Cipher)
    (hne : data ≠ []) (hshort : data.length < 48)
    (h3 : (byteAt data 0 &&& 0x38) >>> 3 ≠ 3)
    (h4 : (byteAt data 0 &&& 0x38) >>> 3 ≠ 4) :
    NtpPacket.deserialize data cipher =
      .error (.InvalidVersion ((byteAt data 0 &&& 0x38) >>> 3)) ∧
    NtpPacket.deserialize data cipher ≠ .error .IncorrectLength := by
  have hmain := deserialize_invalid_version data cipher hne h3 h4
  refine ⟨hmain, ?_⟩
  rw [hmain]
  intro hcontra
  simp at hcontra

/-- Witness for C9 at a 3-octet input with version 0. -/
theorem C9_version_check_precedes_length_witness :
    NtpPacket.deserialize [0x04, 0, 0] idCipher = .error (.InvalidVersion 0) ∧
    NtpPacket.deserialize [0x04, 0, 0] idCipher ≠ .error .IncorrectLength :=
  C9_version_check_precedes_length [0x04, 0, 0] idCipher (by decide) (by decide)
    (by decide) (by decide)

/-- Claim C10: whenever the extension-field parser starts a frame (at least
28 octets remaining), a remaining length that is not a multiple of 4 is
rejected with `IncorrectLength`; in particular a v4 packet whose
extension-field region plus trailer is misaligned at the first frame
boundary fails as a whole. -/
theorem C10_frame_alignment :
    (∀ data : List Nat, data.length % 4 ≠ 0 →
      UnparsedExtensionField.deserialize data = .error .IncorrectLength) ∧
    (∀ (data : List Nat) (fuel offset : Nat) (acc : List ExtensionField),
      28 ≤ data.length - offset → 1 ≤ fuel → (data.length - offset) % 4 ≠ 0 →
      ExtensionFieldData.deserialize_pre data fuel offset acc = .error .IncorrectLength) ∧
    (∀ (data : List Nat) (cipher : Cipher), 76 ≤ data.length →
      (data.length - 48) % 4 ≠ 0 → (byteAt data 0 &&& 0x38) >>> 3 = 4 →
      NtpPacket.deserialize data cipher = .error .IncorrectLength) := by
  refine ⟨uef_deserialize_misaligned, deserialize_pre_misaligned, ?_⟩
  intro data cipher hlen h4mod hv
  unfold NtpPacket.deserialize
  rw [if_neg (by simp [List.isEmpty_iff]; intro hcon; rw [hcon] at hlen; simp at hlen)]
  dsimp only
  rw [if_neg (by omega), if_pos hv]
  unfold NtpHeaderV3V4.deserialize NtpHeaderV3V4.LENGTH
  rw [if_neg (by omega)]
  dsimp only
  rw [efd_deserialize_error_of_pre data 48 cipher .IncorrectLength
    (deserialize_pre_misaligned data data.length 48 [] (by omega) (by omega) h4mod)]

/-- Witness for C10 at a 77-octet version-4 input (29 octets after the
header, not a multiple of 4). -/
theorem C10_frame_alignment_witness :
    NtpPacket.deserialize (0x23 :: List.replicate 76 0) idCipher =
      .error .IncorrectLength :=
  C10_frame_alignment.2.2 (0x23 :: List.replicate 76 0) idCipher (by decide) (by decide)
    (by decide)

/-! ## Claim theorems: encrypted-container handling -/

/-- Claim C4: at most one encrypted container.  After a successfully
decrypted container, the POST loop turns any further container frame into
`MalformedNtsExtensionFields`; the plaintext loop does the same for a nested
container; and two concrete packets (a duplicate container and a nested
container under the identity cipher) make `NtpPacket::deserialize` fail with
exactly that error. -/
theorem C4_single_encrypted_container :
    (∀ (data : List Nat) (fuel offset : Nat) (acc : List ExtensionField)
        (u : UnparsedExtensionField),
      28 ≤ data.length - offset → 1 ≤ fuel →
      UnparsedExtensionField.deserialize (data.drop offset) = .ok u →
      u.type_id = .NtsEncryptedField →
      ExtensionFieldData.deserialize_post data fuel offset acc =
        .error .MalformedNtsExtensionFields) ∧
    (∀ (plaintext : List Nat) (fuel offset : Nat) (acc : List ExtensionField)
        (u : UnparsedExtensionField),
      offset < plaintext.length → 1 ≤ fuel →
      UnparsedExtensionField.deserialize (plaintext.drop offset) = .ok u →
      u.type_id = .NtsEncryptedField →
      ExtensionFieldData.deserialize_encrypted plaintext fuel offset acc =
        .error .MalformedNtsExtensionFields) ∧
    NtpPacket.deserialize twoContainersPacket idCipher =
      .error .MalformedNtsExtensionFields ∧
    NtpPacket.deserialize nestedContainerPacket idCipher =
      .error .MalformedNtsExtensionFields := by
  refine ⟨?_, ?_, by set_option maxRecDepth 4000 in decide,
    by set_option maxRecDepth 4000 in decide⟩
  · intro data fuel offset acc u h28 hfuel huef htid
    cases fuel with
    | zero => omega
    | succ n =>
      unfold ExtensionFieldData.deserialize_post
      rw [if_pos (by unfold Mac.MAXIMUM_SIZE; omega), huef]
      dsimp only
      obtain ⟨tid, msg⟩ := u
      cases htid
      rfl
  · intro plaintext fuel offset acc u hoff hfuel huef htid
    cases fuel with
    | zero => omega
    | succ n =>
      unfold ExtensionFieldData.deserialize_encrypted
      rw [if_pos hoff, huef]
      dsimp only
      obtain ⟨tid, msg⟩ := u
      cases htid
      rfl

/-- Witness for C4: the POST loop rejects the duplicate container of
`twoContainersPacket` at its own offset 72. -/
theorem C4_single_encrypted_container_witness :
    ExtensionFieldData.deserialize_post twoContainersPacket 100 72 [] =
      .error .MalformedNtsExtensionFields :=
  C4_single_encrypted_container.1 twoContainersPacket 100 72 []
    { type_id := .NtsEncryptedField, message_bytes := [0, 16, 0, 0] ++ List.replicate 16 0 }
    (by decide) (by decide) (by decide) rfl

/-- Claim C5 (amended): in `UnparsedEncryptedField::from_message_bytes` the
length-accounting check `4 + pad4(nonce_len) + pad4(ct_len) = pad4(body_len)`
runs first and fails with `IncorrectLength`; a declared nonce length other
than 16 always makes the parse fail, with `MalformedNonce` only when the
accounting and slice/padding checks all pass, and `IncorrectLength`
otherwise. -/
theorem C5_encrypted_body_validation (body : List Nat) :
    (4 + next_multiple_of (readU16 body 0) 4 + next_multiple_of (readU16 body 2) 4 ≠
        next_multiple_of body.length 4 →
      UnparsedEncryptedField.from_message_bytes body = .error .IncorrectLength) ∧
    (readU16 body 0 ≠ 16 →
      UnparsedEncryptedField.from_message_bytes body = .error .IncorrectLength ∨
      UnparsedEncryptedField.from_message_bytes body = .error .MalformedNonce) := by
  constructor
  · intro h
    unfold UnparsedEncryptedField.from_message_bytes
    rw [if_pos h]
  · intro h
    unfold UnparsedEncryptedField.from_message_bytes
    by_cases hacc : 4 + next_multiple_of (readU16 body 0) 4 +
        next_multiple_of (readU16 body 2) 4 ≠ next_multiple_of body.length 4
    · rw [if_pos hacc]
      left
      rfl
    · rw [if_neg hacc]
      dsimp only
      cases hs1 : sliceGet body 4 (4 + readU16 body 0) with
      | none => left; rfl
      | some nonce_bytes =>
        dsimp only
        cases hs2 : sliceGet body (4 + readU16 body 0)
            (4 + next_multiple_of (readU16 body 0) 4) with
        | none => left; rfl
        | some nonce_padding =>
          dsimp only
          by_cases hpad : nonce_padding.any (fun b => b ≠ 0)
          · rw [if_pos hpad]
            left
            rfl
          · rw [if_neg hpad]
            cases hs3 : sliceGet body (4 + next_multiple_of (readU16 body 0) 4)
                (4 + next_multiple_of (readU16 body 0) 4 + readU16 body 2) with
            | none => left; rfl
            | some ciphertext =>
              dsimp only
              have hnb := sliceGet_eq_some hs1
              rw [if_pos (show nonce_bytes.length ≠ 16 by omega)]
              right
              rfl

/-- Counterexample to C5 as stated: the 8-octet body `[0,0,0,0,0,0,0,0]`
declares nonce length 0 (≠ 16) yet fails with `IncorrectLength`, not
`MalformedNonce`, because the accounting check fires first. -/
theorem C5_encrypted_body_validation_counterexample :
    readU16 [0, 0, 0, 0, 0, 0, 0, 0] 0 ≠ 16 ∧
    UnparsedEncryptedField.from_message_bytes [0, 0, 0, 0, 0, 0, 0, 0] =
      .error .IncorrectLength ∧
    UnparsedEncryptedField.from_message_bytes [0, 0, 0, 0, 0, 0, 0, 0] ≠
      .error .MalformedNonce := by
  refine ⟨by decide, by decide, by decide⟩

/-- Witness for C5 (amended) at the counterexample body and at a body whose
accounting fails. -/
theorem C5_encrypted_body_validation_witness :
    UnparsedEncryptedField.from_message_bytes [0, 0, 0, 0, 0, 0, 0, 0] =
        .error .IncorrectLength ∨
    UnparsedEncryptedField.from_message_bytes [0, 0, 0, 0, 0, 0, 0, 0] =
        .error .MalformedNonce :=
  (C5_encrypted_body_validation [0, 0, 0, 0, 0, 0, 0, 0]).2 (by decide)

/-- Claim C3: the `field_length` value written by `encode_encryped` equals
`8 + pad4(nonce_len) + pad4(ct_len)`.  The source computes it as
`8 + pad4(nonce_len + ct_len)`; the two agree because the `Nonce` type fixes
`nonce_len = 16`, a multiple of 4 (carried here as the hypothesis
`nonce.length = 16`). -/
theorem C3_encrypted_container_field_length (packet_so_far : List Nat)
    (fields : List ExtensionField) (cipher : Cipher) (nonce : List Nat)
    (hn : nonce.length = 16)
    (hct : (cipher.encrypt nonce (serializeFields fields) packet_so_far).length ≤ 65504) :
    readU16 (ExtensionField.encode_encryped packet_so_far fields cipher nonce) 2 =
      8 + next_multiple_of nonce.length 4 +
        next_multiple_of (cipher.encrypt nonce (serializeFields fields) packet_so_far).length
          4 := by
  unfold ExtensionField.encode_encryped
  dsimp only
  simp only [u16_be, List.cons_append, List.nil_append, readU16, byteAt_cons_zero,
    byteAt_cons_succ]
  rw [hn]
  rw [next_multiple_of_four_add_left 16 _ (by decide)]
  have hb := next_multiple_of_four_le
    (cipher.encrypt nonce (serializeFields fields) packet_so_far).length
  have hshow : next_multiple_of 16 4 = 16 := by decide
  omega

/-- Witness for C3 at a concrete empty plaintext under the identity cipher. -/
theorem C3_encrypted_container_field_length_witness :
    readU16 (ExtensionField.encode_encryped [] [] idCipher (List.replicate 16 0)) 2 = 24 :=
  C3_encrypted_container_field_length [] [] idCipher (List.replicate 16 0)
    (by decide) (by decide)

/-- Claim C8: `timestamp_response` mirrors the input's transmit timestamp
into the origin timestamp, and `valid_server_response` is true exactly when
the packet's origin timestamp equals the identifier's expected one. -/
theorem C8_response_mirror_and_validation :
    (∀ (system : SystemSnapshot) (input : NtpHeaderV3V4) (recv_timestamp : List Nat)
        (clock : NtpClock),
      (NtpHeaderV3V4.timestamp_response system input recv_timestamp clock).origin_timestamp =
        input.transmit_timestamp) ∧
    (∀ (system : SystemSnapshot) (input : NtpPacket) (recv_timestamp : List Nat)
        (clock : NtpClock),
      (match (NtpPacket.timestamp_response system input recv_timestamp clock).header with
       | .V3 h => h.origin_timestamp
       | .V4 h => h.origin_timestamp) =
        (match input.header with
         | .V3 h => h.transmit_timestamp
         | .V4 h => h.transmit_timestamp)) ∧
    (∀ (p : NtpPacket) (identifier : RequestIdentifier),
      NtpPacket.valid_server_response p identifier = true ↔
        (match p.header with
         | .V3 h => h.origin_timestamp
         | .V4 h => h.origin_timestamp) = identifier.expected_origin_timestamp) := by
  refine ⟨fun _ _ _ _ => rfl, ?_, ?_⟩
  · intro system input recv_timestamp clock
    obtain ⟨hdr, efd, mac⟩ := input
    cases hdr <;> rfl
  · intro p identifier
    obtain ⟨hdr, efd, mac⟩ := p
    unfold NtpPacket.valid_server_response
    cases hdr <;> simp [beq_iff_eq]

/-! ## Extension-field frame shape and parse lemmas -/

theorem serializeFields_nil : serializeFields [] = [] := rfl

theorem serializeFields_cons (f : ExtensionField) (fs : List ExtensionField) :
    serializeFields (f :: fs) = ExtensionField.serialize f ++ serializeFields fs := by
  simp [serializeFields]

theorem replicate_zero_any_ne (k : Nat) :
    (List.replicate k 0).any (fun b => b ≠ 0) = false := by
  induction k with
  | zero => rfl
  | succ n ih => simpa [List.replicate_succ] using ih

theorem drop_four_cons (a b c d : Nat) (l : List Nat) (k : Nat) :
    (a :: b :: c :: d :: l).drop (4 + k) = l.drop k := by
  rw [show 4 + k = k + 1 + 1 + 1 + 1 by omega]
  simp [List.drop_succ_cons]

theorem serialize_field_shape (f : ExtensionField) (hv : validField f = true) :
    ExtensionField.serialize f =
      u16_be (frameTid f) ++ u16_be (4 + (frameBody f).length) ++ frameBody f ++
        List.replicate (next_multiple_of (frameBody f).length 4 - (frameBody f).length) 0 := by
  cases f with
  | UniqueIdentifier d =>
    simp only [validField, decide_eq_true_eq] at hv
    simp only [ExtensionField.serialize, ExtensionField.encode_unique_identifier,
      frameTid, frameBody]
    rw [Nat.mod_eq_of_lt (by omega)]
  | NtsCookie d =>
    simp only [validField, decide_eq_true_eq] at hv
    simp only [ExtensionField.serialize, ExtensionField.encode_nts_cookie,
      frameTid, frameBody]
    rw [Nat.mod_eq_of_lt (by omega)]
  | NtsCookiePlaceholder cl =>
    simp only [validField, decide_eq_true_eq] at hv
    have hcl : cl % 65536 = cl := Nat.mod_eq_of_lt (by omega)
    simp only [ExtensionField.serialize, ExtensionField.encode_nts_cookie_placeholder,
      frameTid, frameBody, hcl, List.length_replicate]
    rw [Nat.mod_eq_of_lt (by omega)]
    have hle := le_next_multiple_of_four cl
    obtain ⟨k, hk⟩ : ∃ k, next_multiple_of cl 4 = cl + k :=
      ⟨next_multiple_of cl 4 - cl, by omega⟩
    rw [hk, List.replicate_add, Nat.add_sub_cancel_left]
    simp [List.append_assoc]
  | Unknown t d =>
    simp only [validField, decide_eq_true_eq] at hv
    simp only [ExtensionField.serialize, ExtensionField.encode_unknown,
      frameTid, frameBody]
    rw [Nat.mod_eq_of_lt (show 4 + d.length < 65536 by omega)]

theorem serialize_field_length (f : ExtensionField) (hv : validField f = true) :
    (ExtensionField.serialize f).length = 4 + next_multiple_of (frameBody f).length 4 := by
  rw [serialize_field_shape f hv]
  have := le_next_multiple_of_four (frameBody f).length
  simp [u16_be]
  omega

theorem serialize_field_length_mod (f : ExtensionField) (hv : validField f = true) :
    (ExtensionField.serialize f).length % 4 = 0 := by
  rw [serialize_field_length f hv]
  have := next_multiple_of_four_mod (frameBody f).length
  omega

theorem serializeFields_length_mod (fs : List ExtensionField)
    (hv : ∀ f ∈ fs, validField f = true) : (serializeFields fs).length % 4 = 0 := by
  induction fs with
  | nil => rfl
  | cons f fs ih =>
    rw [serializeFields_cons, List.length_append]
    have h1 := serialize_field_length_mod f (hv f (by simp))
    have h2 := ih (fun g hg => hv g (by simp [hg]))
    omega

theorem uef_deserialize_generic (tid : Nat) (body rest : List Nat)
    (h16 : 16 ≤ 4 + body.length) (hlt : 4 + body.length < 65536)
    (hrest : rest.length % 4 = 0) :
    UnparsedExtensionField.deserialize
      (u16_be tid ++ u16_be (4 + body.length) ++ body ++
        List.replicate (next_multiple_of body.length 4 - body.length) 0 ++ rest) =
      .ok { type_id := ExtensionFieldTypeId.from_type_id (tid % 65536),
            message_bytes := body } := by
  have hpadlen := le_next_multiple_of_four body.length
  have hbuf : u16_be tid ++ u16_be (4 + body.length) ++ body ++
      List.replicate (next_multiple_of body.length 4 - body.length) 0 ++ rest =
      tid / 256 % 256 :: tid % 256 :: (4 + body.length) / 256 % 256 ::
        (4 + body.length) % 256 ::
        (body ++ (List.replicate (next_multiple_of body.length 4 - body.length) 0 ++ rest)) := by
    simp [u16_be, List.append_assoc]
  rw [hbuf]
  have hlen : (tid / 256 % 256 :: tid % 256 :: (4 + body.length) / 256 % 256 ::
      (4 + body.length) % 256 ::
      (body ++ (List.replicate (next_multiple_of body.length 4 - body.length) 0 ++ rest))).length
      = 4 + next_multiple_of body.length 4 + rest.length := by
    simp
    omega
  have hr0 : readU16 (tid / 256 % 256 :: tid % 256 :: (4 + body.length) / 256 % 256 ::
      (4 + body.length) % 256 ::
      (body ++ (List.replicate (next_multiple_of body.length 4 - body.length) 0 ++ rest))) 0
      = tid % 65536 := by
    simp [readU16]
    omega
  have hr2 : readU16 (tid / 256 % 256 :: tid % 256 :: (4 + body.length) / 256 % 256 ::
      (4 + body.length) % 256 ::
      (body ++ (List.replicate (next_multiple_of body.length 4 - body.length) 0 ++ rest))) 2
      = 4 + body.length := by
    simp [readU16]
    omega
  unfold UnparsedExtensionField.deserialize
  rw [if_neg (by
    rw [hlen]
    have := next_multiple_of_four_mod body.length
    omega)]
  dsimp only
  rw [hr0, hr2]
  rw [if_neg (by unfold UnparsedExtensionField.MINIMUM_SIZE; omega)]
  rw [sliceGet_of_le (by omega) (by rw [hlen]; omega)]
  dsimp only
  have hval : listSlice (tid / 256 % 256 :: tid % 256 :: (4 + body.length) / 256 % 256 ::
      (4 + body.length) % 256 ::
      (body ++ (List.replicate (next_multiple_of body.length 4 - body.length) 0 ++ rest)))
      4 (4 + body.length) = body := by
    unfold listSlice
    simp only [List.drop_succ_cons, List.drop_zero]
    rw [show 4 + body.length - 4 = body.length by omega]
    exact List.take_left body _
  have hpadslice : listSlice (tid / 256 % 256 :: tid % 256 ::
      (4 + body.length) / 256 % 256 :: (4 + body.length) % 256 ::
      (body ++ (List.replicate (next_multiple_of body.length 4 - body.length) 0 ++ rest)))
      (4 + body.length) (next_multiple_of (4 + body.length) 4) =
      List.replicate (next_multiple_of body.length 4 - body.length) 0 := by
    unfold listSlice
    rw [next_multiple_of_four_add_left 4 body.length (by decide)]
    rw [drop_four_cons]
    rw [List.drop_left]
    rw [show 4 + next_multiple_of body.length 4 - (4 + body.length) =
      (List.replicate (next_multiple_of body.length 4 - body.length) 0).length by
        rw [List.length_replicate]; omega]
    exact List.take_left _ _
  rw [hpadslice, hval]
  rw [if_neg (by rw [replicate_zero_any_ne]; simp)]

theorem frameBody_length_bounds (f : ExtensionField) (hv : validField f = true) :
    12 ≤ (frameBody f).length ∧ (frameBody f).length ≤ 65531 := by
  cases f with
  | UniqueIdentifier d =>
    simp only [validField, decide_eq_true_eq] at hv
    simp only [frameBody]
    omega
  | NtsCookie d =>
    simp only [validField, decide_eq_true_eq] at hv
    simp only [frameBody]
    omega
  | NtsCookiePlaceholder cl =>
    simp only [validField, decide_eq_true_eq] at hv
    simp only [frameBody, List.length_replicate]
    omega
  | Unknown t d =>
    simp only [validField, decide_eq_true_eq] at hv
    simp only [frameBody]
    omega

theorem from_type_id_frameTid (f : ExtensionField) (hv : validField f = true) :
    ExtensionFieldTypeId.from_type_id (frameTid f % 65536) = frameTypeId f := by
  cases f with
  | UniqueIdentifier d => rfl
  | NtsCookie d => rfl
  | NtsCookiePlaceholder cl => rfl
  | Unknown t d =>
    simp only [validField, decide_eq_true_eq] at hv
    obtain ⟨-, -, hlt, h1, h2, h3, h4⟩ := hv
    have ht : t % 65536 % 65536 = t := by omega
    simp only [frameTid, frameTypeId, ht]
    rw [show t % 65536 = t from by omega]
    unfold ExtensionFieldTypeId.from_type_id
    split
    · omega
    · omega
    · omega
    · omega
    · rfl

theorem uef_parse_field (f : ExtensionField) (rest : List Nat) (hv : validField f = true)
    (hrest : rest.length % 4 = 0) :
    UnparsedExtensionField.deserialize (ExtensionField.serialize f ++ rest) =
      .ok { type_id := frameTypeId f, message_bytes := frameBody f } := by
  have hb := frameBody_length_bounds f hv
  rw [serialize_field_shape f hv]
  rw [uef_deserialize_generic (frameTid f) (frameBody f) rest (by omega) (by omega) hrest]
  rw [from_type_id_frameTid f hv]

theorem decode_basic_field_frame (f : ExtensionField) (hv : validField f = true) :
    ExtensionFieldData.decode_basic_field
      { type_id := frameTypeId f, message_bytes := frameBody f } = .ok (some f) := by
  cases f with
  | UniqueIdentifier d =>
    simp only [validField, decide_eq_true_eq] at hv
    have h32 : ¬ d.length < 32 := by omega
    simp [ExtensionFieldData.decode_basic_field, frameTypeId, frameBody,
      ExtensionField.decode_unique_identifier, h32]
  | NtsCookie d => rfl
  | NtsCookiePlaceholder cl =>
    simp only [validField, decide_eq_true_eq] at hv
    have hcl : cl % 65536 = cl := Nat.mod_eq_of_lt (by omega)
    simp [ExtensionFieldData.decode_basic_field, frameTypeId, frameBody,
      ExtensionField.decode_nts_cookie_placeholder, replicate_zero_any_ne, hcl]
  | Unknown t d =>
    simp only [validField, decide_eq_true_eq] at hv
    have ht : t % 65536 = t := Nat.mod_eq_of_lt (by omega)
    simp [ExtensionFieldData.decode_basic_field, frameTypeId, frameBody,
      ExtensionField.decode_unknown, ht]

theorem frame_unparsed_wire_length (f : ExtensionField) (hv : validField f = true) :
    ({ type_id := frameTypeId f, message_bytes := frameBody f } :
        UnparsedExtensionField).wire_length = (ExtensionField.serialize f).length := by
  rw [serialize_field_length f hv]
  rfl

/-! ## Encrypted-container frame parse lemmas -/

theorem drop_four_cons_exact (a b c d : Nat) (l : List Nat) :
    (a :: b :: c :: d :: l).drop 4 = l := rfl

theorem listSlice_self (l : List Nat) (a : Nat) : listSlice l a a = [] := by
  unfold listSlice
  simp

theorem encode_encryped_eq_frame (packet_so_far : List Nat)
    (fields_to_encrypt : List ExtensionField) (cipher : Cipher) (nonce : List Nat) :
    ExtensionField.encode_encryped packet_so_far fields_to_encrypt cipher nonce =
      encryptedFrame nonce
        (cipher.encrypt nonce (serializeFields fields_to_encrypt) packet_so_far) := rfl

theorem encryptedBody_length (nonce ct : List Nat) (hn : nonce.length = 16) :
    (encryptedBody nonce ct).length = 20 + next_multiple_of ct.length 4 := by
  have hp16 : next_multiple_of 16 4 = 16 := by decide
  have := le_next_multiple_of_four ct.length
  simp [encryptedBody, u16_be, hn, hp16]
  omega

theorem uef_parse_container (nonce ct rest : List Nat) (hn : nonce.length = 16)
    (hct2 : ct.length ≤ 65504) (hrest : rest.length % 4 = 0) :
    UnparsedExtensionField.deserialize (encryptedFrame nonce ct ++ rest) =
      .ok { type_id := .NtsEncryptedField, message_bytes := encryptedBody nonce ct } := by
  have hblen := encryptedBody_length nonce ct hn
  have hctp := next_multiple_of_four_le ct.length
  have hctp' := le_next_multiple_of_four ct.length
  have hfl : (8 + next_multiple_of (nonce.length + ct.length) 4) % 65536 =
      4 + (encryptedBody nonce ct).length := by
    rw [hblen, hn]
    rw [next_multiple_of_four_add_left 16 ct.length (by decide)]
    omega
  have hpadzero : List.replicate (next_multiple_of (encryptedBody nonce ct).length 4 -
      (encryptedBody nonce ct).length) 0 = ([] : List Nat) := by
    rw [hblen]
    rw [next_multiple_of_four_of_mod _ (by
      have := next_multiple_of_four_mod ct.length
      omega)]
    simp
  have hbuf : encryptedFrame nonce ct ++ rest =
      u16_be 0x404 ++ u16_be (4 + (encryptedBody nonce ct).length) ++
        encryptedBody nonce ct ++
        List.replicate (next_multiple_of (encryptedBody nonce ct).length 4 -
          (encryptedBody nonce ct).length) 0 ++ rest := by
    rw [hpadzero, ← hfl]
    simp [encryptedFrame, encryptedBody, List.append_assoc]
  rw [hbuf]
  rw [uef_deserialize_generic 0x404 (encryptedBody nonce ct) rest (by omega)
    (by omega) hrest]
  rfl

theorem encryptedFrame_length (nonce ct : List Nat) (hn : nonce.length = 16) :
    (encryptedFrame nonce ct).length = 24 + next_multiple_of ct.length 4 := by
  have hp16 : next_multiple_of 16 4 = 16 := by decide
  have := le_next_multiple_of_four ct.length
  simp [encryptedFrame, u16_be, hn, hp16]
  omega

theorem container_unparsed_wire_length (nonce ct : List Nat) (hn : nonce.length = 16) :
    ({ type_id := .NtsEncryptedField, message_bytes := encryptedBody nonce ct } :
        UnparsedExtensionField).wire_length = (encryptedFrame nonce ct).length := by
  unfold UnparsedExtensionField.wire_length
  rw [encryptedFrame_length nonce ct hn]
  dsimp only
  rw [encryptedBody_length nonce ct hn]
  rw [next_multiple_of_four_of_mod _ (by
    have := next_multiple_of_four_mod ct.length
    omega)]
  omega

theorem from_message_bytes_encryptedBody (nonce ct : List Nat) (hn : nonce.length = 16)
    (hct2 : ct.length ≤ 65504) :
    UnparsedEncryptedField.from_message_bytes (encryptedBody nonce ct) =
      .ok { nonce := nonce, ciphertext := ct } := by
  have hp16 : next_multiple_of 16 4 = 16 := by decide
  have hctl : ct.length % 65536 = ct.length := Nat.mod_eq_of_lt (by omega)
  have hctp := next_multiple_of_four_le ct.length
  have hctp' := le_next_multiple_of_four ct.length
  have hb : encryptedBody nonce ct =
      0 :: 16 :: ct.length / 256 % 256 :: ct.length % 256 ::
        (nonce ++ (ct ++ List.replicate (next_multiple_of ct.length 4 - ct.length) 0)) := by
    simp [encryptedBody, u16_be, hn, hp16, hctl, List.append_assoc]
  rw [hb]
  have hlen : (0 :: 16 :: ct.length / 256 % 256 :: ct.length % 256 ::
      (nonce ++ (ct ++ List.replicate (next_multiple_of ct.length 4 - ct.length) 0))).length =
      20 + next_multiple_of ct.length 4 := by
    simp [hn]
    omega
  have h0 : readU16 (0 :: 16 :: ct.length / 256 % 256 :: ct.length % 256 ::
      (nonce ++ (ct ++ List.replicate (next_multiple_of ct.length 4 - ct.length) 0))) 0
      = 16 := by
    simp [readU16]
  have h2 : readU16 (0 :: 16 :: ct.length / 256 % 256 :: ct.length % 256 ::
      (nonce ++ (ct ++ List.replicate (next_multiple_of ct.length 4 - ct.length) 0))) 2
      = ct.length := by
    simp [readU16]
    omega
  unfold UnparsedEncryptedField.from_message_bytes
  dsimp only
  rw [h0, h2]
  rw [if_neg (by
    rw [hlen, hp16]
    rw [next_multiple_of_four_of_mod (20 + next_multiple_of ct.length 4) (by
      have := next_multiple_of_four_mod ct.length
      omega)]
    omega)]
  rw [hp16]
  rw [sliceGet_of_le (by omega) (by rw [hlen]; omega)]
  dsimp only
  have hslice1 : listSlice (0 :: 16 :: ct.length / 256 % 256 :: ct.length % 256 ::
      (nonce ++ (ct ++ List.replicate (next_multiple_of ct.length 4 - ct.length) 0)))
      4 (4 + 16) = nonce := by
    unfold listSlice
    rw [drop_four_cons_exact]
    rw [show 4 + 16 - 4 = nonce.length by omega]
    exact List.take_left _ _
  rw [sliceGet_of_le (by omega) (by rw [hlen]; omega)]
  dsimp only
  rw [listSlice_self]
  rw [if_neg (by simp)]
  rw [sliceGet_of_le (by omega) (by rw [hlen]; omega)]
  dsimp only
  have hslice3 : listSlice (0 :: 16 :: ct.length / 256 % 256 :: ct.length % 256 ::
      (nonce ++ (ct ++ List.replicate (next_multiple_of ct.length 4 - ct.length) 0)))
      (4 + 16) (4 + 16 + ct.length) = ct := by
    unfold listSlice
    rw [drop_four_cons (0) (16) _ _ _ 16]
    rw [show (16 : Nat) = nonce.length from hn.symm]
    rw [List.drop_left]
    rw [show 4 + nonce.length + ct.length - (4 + nonce.length) = ct.length by omega]
    exact List.take_left _ _
  rw [hslice1, hslice3]
  rw [if_neg (by omega)]

/-! ## Loop transport lemmas -/

theorem deserialize_pre_skip_fields (data : List Nat) (fs : List ExtensionField)
    (hv : ∀ f ∈ fs, validField f = true ∧ 28 ≤ (ExtensionField.serialize f).length) :
    ∀ (fuel offset : Nat) (acc : List ExtensionField) (rest : List Nat),
      data.drop offset = serializeFields fs ++ rest →
      rest.length % 4 = 0 →
      fs.length ≤ fuel →
      ExtensionFieldData.deserialize_pre data fuel offset acc =
        ExtensionFieldData.deserialize_pre data (fuel - fs.length)
          (offset + (serializeFields fs).length) (acc ++ fs) := by
  induction fs with
  | nil =>
    intro fuel offset acc rest hdrop hrest hfuel
    simp [serializeFields_nil]
  | cons f fs ih =>
    intro fuel offset acc rest hdrop hrest hfuel
    have hvf := hv f (by simp)
    have hvs : ∀ g ∈ fs, validField g = true ∧ 28 ≤ (ExtensionField.serialize g).length :=
      fun g hg => hv g (by simp [hg])
    rw [serializeFields_cons] at hdrop
    have hdlen : data.length - offset = (ExtensionField.serialize f).length +
        ((serializeFields fs).length + rest.length) := by
      have hc := congrArg List.length hdrop
      simp only [List.length_drop, List.length_append] at hc
      omega
    cases fuel with
    | zero => exact absurd hfuel (by simp)
    | succ n =>
      conv_lhs => unfold ExtensionFieldData.deserialize_pre
      rw [if_pos (by unfold Mac.MAXIMUM_SIZE; omega)]
      rw [List.append_assoc] at hdrop
      rw [hdrop]
      rw [uef_parse_field f _ hvf.1 (by
        rw [List.length_append]
        have := serializeFields_length_mod fs (fun g hg => (hvs g hg).1)
        omega)]
      dsimp only
      rw [decode_basic_field_frame f hvf.1]
      dsimp only
      rw [frame_unparsed_wire_length f hvf.1]
      have hdrop' : data.drop (offset + (ExtensionField.serialize f).length) =
          serializeFields fs ++ rest := by
        rw [← List.drop_drop]
        rw [hdrop, List.drop_left]
      rw [ih hvs n (offset + (ExtensionField.serialize f).length) (acc ++ [f]) rest hdrop'
        hrest (by simp at hfuel; omega)]
      rw [serializeFields_cons, List.length_append, ← Nat.add_assoc]
      rw [show n + 1 - (f :: fs).length = n - fs.length from by simp]
      rw [show acc ++ f :: fs = (acc ++ [f]) ++ fs from by simp]

theorem deserialize_pre_found_container (data : List Nat) (fuel offset : Nat)
    (acc : List ExtensionField) (nonce ct rest : List Nat)
    (hdrop : data.drop offset = encryptedFrame nonce ct ++ rest)
    (hn : nonce.length = 16) (hct1 : 1 ≤ ct.length) (hct2 : ct.length ≤ 65504)
    (hrest : rest.length % 4 = 0) (hfuel : 1 ≤ fuel) :
    ExtensionFieldData.deserialize_pre data fuel offset acc =
      .ok (acc, some ({ nonce := nonce, ciphertext := ct }, data.take offset),
        offset + (encryptedFrame nonce ct).length) := by
  have hflen := encryptedFrame_length nonce ct hn
  have hctp' := le_next_multiple_of_four ct.length
  have hctmod := next_multiple_of_four_mod ct.length
  have hdlen : data.length - offset = (encryptedFrame nonce ct).length + rest.length := by
    have hc := congrArg List.length hdrop
    simp only [List.length_drop, List.length_append] at hc
    omega
  cases fuel with
  | zero => exact absurd hfuel (by simp)
  | succ n =>
    unfold ExtensionFieldData.deserialize_pre
    rw [if_pos (by unfold Mac.MAXIMUM_SIZE; omega)]
    rw [hdrop]
    rw [uef_parse_container nonce ct rest hn hct2 hrest]
    dsimp only
    rw [show ExtensionFieldData.decode_basic_field
        { type_id := .NtsEncryptedField, message_bytes := encryptedBody nonce ct } =
        .ok none from rfl]
    dsimp only
    rw [from_message_bytes_encryptedBody nonce ct hn hct2]
    dsimp only
    rw [container_unparsed_wire_length nonce ct hn]

theorem deserialize_post_skip_fields (data : List Nat) (fs : List ExtensionField)
    (hv : ∀ f ∈ fs, validField f = true ∧ 28 ≤ (ExtensionField.serialize f).length) :
    ∀ (fuel offset : Nat) (acc : List ExtensionField) (rest : List Nat),
      data.drop offset = serializeFields fs ++ rest →
      rest.length % 4 = 0 →
      fs.length ≤ fuel →
      ExtensionFieldData.deserialize_post data fuel offset acc =
        ExtensionFieldData.deserialize_post data (fuel - fs.length)
          (offset + (serializeFields fs).length) (acc ++ fs) := by
  induction fs with
  | nil =>
    intro fuel offset acc rest hdrop hrest hfuel
    simp [serializeFields_nil]
  | cons f fs ih =>
    intro fuel offset acc rest hdrop hrest hfuel
    have hvf := hv f (by simp)
    have hvs : ∀ g ∈ fs, validField g = true ∧ 28 ≤ (ExtensionField.serialize g).length :=
      fun g hg => hv g (by simp [hg])
    rw [serializeFields_cons] at hdrop
    have hdlen : data.length - offset = (ExtensionField.serialize f).length +
        ((serializeFields fs).length + rest.length) := by
      have hc := congrArg List.length hdrop
      simp only [List.length_drop, List.length_append] at hc
      omega
    cases fuel with
    | zero => exact absurd hfuel (by simp)
    | succ n =>
      conv_lhs => unfold ExtensionFieldData.deserialize_post
      rw [if_pos (by unfold Mac.MAXIMUM_SIZE; omega)]
      rw [List.append_assoc] at hdrop
      rw [hdrop]
      rw [uef_parse_field f _ hvf.1 (by
        rw [List.length_append]
        have := serializeFields_length_mod fs (fun g hg => (hvs g hg).1)
        omega)]
      dsimp only
      rw [decode_basic_field_frame f hvf.1]
      dsimp only
      rw [frame_unparsed_wire_length f hvf.1]
      have hdrop' : data.drop (offset + (ExtensionField.serialize f).length) =
          serializeFields fs ++ rest := by
        rw [← List.drop_drop]
        rw [hdrop, List.drop_left]
      rw [ih hvs n (offset + (ExtensionField.serialize f).length) (acc ++ [f]) rest hdrop'
        hrest (by simp at hfuel; omega)]
      rw [serializeFields_cons, List.length_append, ← Nat.add_assoc]
      rw [show n + 1 - (f :: fs).length = n - fs.length from by simp]
      rw [show acc ++ f :: fs = (acc ++ [f]) ++ fs from by simp]

theorem deserialize_encrypted_parse (plaintext : List Nat) (fs : List ExtensionField)
    (hv : ∀ f ∈ fs, validField f = true) :
    ∀ (fuel offset : Nat) (acc : List ExtensionField),
      plaintext.drop offset = serializeFields fs →
      fs.length ≤ fuel →
      ExtensionFieldData.deserialize_encrypted plaintext fuel offset acc =
        .ok (acc ++ fs) := by
  induction fs with
  | nil =>
    intro fuel offset acc hdrop hfuel
    have hc := congrArg List.length hdrop
    simp only [List.length_drop, serializeFields_nil, List.length_nil] at hc
    rw [deserialize_encrypted_stop plaintext fuel offset acc (by omega)]
    simp
  | cons f fs ih =>
    intro fuel offset acc hdrop hfuel
    have hvf := hv f (by simp)
    have hvs : ∀ g ∈ fs, validField g = true := fun g hg => hv g (by simp [hg])
    rw [serializeFields_cons] at hdrop
    have hwf : 16 ≤ (ExtensionField.serialize f).length := by
      rw [serialize_field_length f hvf]
      have h1 := (frameBody_length_bounds f hvf).1
      have h2 := le_next_multiple_of_four (frameBody f).length
      omega
    have hdlen : plaintext.length - offset = (ExtensionField.serialize f).length +
        (serializeFields fs).length := by
      have hc := congrArg List.length hdrop
      simp only [List.length_drop, List.length_append] at hc
      omega
    cases fuel with
    | zero => exact absurd hfuel (by simp)
    | succ n =>
      conv_lhs => unfold ExtensionFieldData.deserialize_encrypted
      rw [if_pos (by omega)]
      rw [hdrop]
      rw [uef_parse_field f _ hvf (serializeFields_length_mod fs hvs)]
      dsimp only
      rw [decode_basic_field_frame f hvf]
      dsimp only
      rw [frame_unparsed_wire_length f hvf]
      have hdrop' : plaintext.drop (offset + (ExtensionField.serialize f).length) =
          serializeFields fs := by
        rw [← List.drop_drop]
        rw [hdrop, List.drop_left]
      rw [ih hvs n (offset + (ExtensionField.serialize f).length) (acc ++ [f]) hdrop'
        (by simp at hfuel; omega)]
      simp

theorem fields_length_le (fs : List ExtensionField)
    (hv : ∀ f ∈ fs, validField f = true) : fs.length ≤ (serializeFields fs).length := by
  induction fs with
  | nil => simp [serializeFields_nil]
  | cons f fs ih =>
    rw [serializeFields_cons, List.length_append, List.length_cons]
    have h1 := serialize_field_length f (hv f (by simp))
    have h2 := (frameBody_length_bounds f (hv f (by simp))).1
    have h3 := le_next_multiple_of_four (frameBody f).length
    have h4 := ih (fun g hg => hv g (by simp [hg]))
    omega

theorem encryptedFrame_length_mod (nonce ct : List Nat) (hn : nonce.length = 16) :
    (encryptedFrame nonce ct).length % 4 = 0 := by
  rw [encryptedFrame_length nonce ct hn]
  have := next_multiple_of_four_mod ct.length
  omega

theorem efd_deserialize_fields_only (data : List Nat) (cipher : Cipher)
    (fs : List ExtensionField) (tail : List Nat)
    (hv : ∀ f ∈ fs, validField f = true ∧ 28 ≤ (ExtensionField.serialize f).length)
    (hdrop : data.drop 48 = serializeFields fs ++ tail)
    (h48 : 48 ≤ data.length)
    (htail : tail.length < 28) (htail4 : tail.length % 4 = 0) :
    ExtensionFieldData.deserialize data 48 cipher =
      .ok ({ authenticated := [], encrypted := [], untrusted := fs },
        48 + (serializeFields fs).length) := by
  have hdlen : data.length - 48 = (serializeFields fs).length + tail.length := by
    have hc := congrArg List.length hdrop
    simp only [List.length_drop, List.length_append] at hc
    omega
  have hle := fields_length_le fs (fun f hf => (hv f hf).1)
  unfold ExtensionFieldData.deserialize
  rw [deserialize_pre_skip_fields data fs hv data.length 48 [] tail hdrop htail4
    (by omega)]
  rw [deserialize_pre_stop data _ _ _ (by omega)]
  dsimp only
  rw [deserialize_post_stop data _ _ _ (by omega)]
  simp

theorem efd_deserialize_with_container (data : List Nat) (cipher : Cipher)
    (pre es post : List ExtensionField) (nonce ct tail : List Nat)
    (hvpre : ∀ f ∈ pre, validField f = true ∧ 28 ≤ (ExtensionField.serialize f).length)
    (hves : ∀ f ∈ es, validField f = true)
    (hvpost : ∀ f ∈ post, validField f = true ∧ 28 ≤ (ExtensionField.serialize f).length)
    (hdrop : data.drop 48 = serializeFields pre ++
      (encryptedFrame nonce ct ++ (serializeFields post ++ tail)))
    (h48 : 48 ≤ data.length)
    (hn : nonce.length = 16) (hct1 : 1 ≤ ct.length) (hct2 : ct.length ≤ 65504)
    (hdec : cipher.decrypt nonce ct (data.take (48 + (serializeFields pre).length)) =
      some (serializeFields es))
    (htail : tail.length < 28) (htail4 : tail.length % 4 = 0) :
    ExtensionFieldData.deserialize data 48 cipher =
      .ok ({ authenticated := pre, encrypted := es, untrusted := post },
        48 + (serializeFields pre).length + (encryptedFrame nonce ct).length +
          (serializeFields post).length) := by
  have hframe4 := encryptedFrame_length_mod nonce ct hn
  have hframelen := encryptedFrame_length nonce ct hn
  have hpost4 := serializeFields_length_mod post (fun f hf => (hvpost f hf).1)
  have hpre4 := serializeFields_length_mod pre (fun f hf => (hvpre f hf).1)
  have hlepre := fields_length_le pre (fun f hf => (hvpre f hf).1)
  have hlepost := fields_length_le post (fun f hf => (hvpost f hf).1)
  have hctp := le_next_multiple_of_four ct.length
  have hdlen : data.length - 48 = (serializeFields pre).length +
      ((encryptedFrame nonce ct).length +
        ((serializeFields post).length + tail.length)) := by
    have hc := congrArg List.length hdrop
    simp only [List.length_drop, List.length_append] at hc
    omega
  have hdrop1 : data.drop (48 + (serializeFields pre).length) =
      encryptedFrame nonce ct ++ (serializeFields post ++ tail) := by
    rw [← List.drop_drop]
    rw [hdrop, List.drop_left]
  have hdrop2 : data.drop (48 + (serializeFields pre).length +
      (encryptedFrame nonce ct).length) = serializeFields post ++ tail := by
    rw [← List.drop_drop]
    rw [hdrop1, List.drop_left]
  unfold ExtensionFieldData.deserialize
  rw [deserialize_pre_skip_fields data pre hvpre data.length 48 []
    (encryptedFrame nonce ct ++ (serializeFields post ++ tail)) hdrop
    (by simp only [List.length_append]; omega) (by omega)]
  rw [deserialize_pre_found_container data (data.length - pre.length)
    (48 + (serializeFields pre).length) ([] ++ pre) nonce ct
    (serializeFields post ++ tail) hdrop1 hn hct1 hct2
    (by simp only [List.length_append]; omega) (by omega)]
  dsimp only
  rw [hdec]
  dsimp only
  rw [deserialize_encrypted_parse (serializeFields es) es hves
    (serializeFields es).length 0 [] (by simp) (fields_length_le es hves)]
  dsimp only
  rw [deserialize_post_skip_fields data post hvpost data.length
    (48 + (serializeFields pre).length + (encryptedFrame nonce ct).length) [] tail
    hdrop2 htail4 (by omega)]
  rw [deserialize_post_stop data _ _ _ (by omega)]
  simp

/-! ## Header round-trip lemmas -/

theorem leap_to_bits_lt (l : NtpLeapIndicator) : l.to_bits < 4 := by
  cases l <;> decide

theorem mode_to_bits_lt (m : NtpAssociationMode) : m.to_bits < 8 := by
  cases m <;> decide

theorem leap_from_to_bits (l : NtpLeapIndicator) :
    NtpLeapIndicator.from_bits l.to_bits = l := by
  cases l <;> rfl

theorem mode_from_to_bits (m : NtpAssociationMode) :
    NtpAssociationMode.from_bits m.to_bits = m := by
  cases m <;> rfl

set_option maxRecDepth 2000 in
theorem byte0_decompose_v3 : ∀ a, a < 4 → ∀ m, m < 8 →
    ((a <<< 6 ||| (3 <<< 3) % 256 ||| m) &&& 0xC0) >>> 6 = a ∧
    ((a <<< 6 ||| (3 <<< 3) % 256 ||| m) &&& 0x38) >>> 3 = 3 ∧
    (a <<< 6 ||| (3 <<< 3) % 256 ||| m) &&& 0x07 = m ∧
    (a <<< 6 ||| (3 <<< 3) % 256 ||| m) < 256 := by decide

set_option maxRecDepth 2000 in
theorem byte0_decompose_v4 : ∀ a, a < 4 → ∀ m, m < 8 →
    ((a <<< 6 ||| (4 <<< 3) % 256 ||| m) &&& 0xC0) >>> 6 = a ∧
    ((a <<< 6 ||| (4 <<< 3) % 256 ||| m) &&& 0x38) >>> 3 = 4 ∧
    (a <<< 6 ||| (4 <<< 3) % 256 ||| m) &&& 0x07 = m ∧
    (a <<< 6 ||| (4 <<< 3) % 256 ||| m) < 256 := by decide

theorem header_serialize_length (h : NtpHeaderV3V4) (version : Nat)
    (hw : wellFormedHeader h = true) :
    (NtpHeaderV3V4.serialize h version).length = 48 := by
  simp only [wellFormedHeader, decide_eq_true_eq] at hw
  simp [NtpHeaderV3V4.serialize]
  omega

theorem header_serialize_byte0 (h : NtpHeaderV3V4) (version : Nat) (rest : List Nat) :
    byteAt (NtpHeaderV3V4.serialize h version ++ rest) 0 =
      h.leap.to_bits <<< 6 ||| (version <<< 3) % 256 ||| h.mode.to_bits := by
  simp [NtpHeaderV3V4.serialize, byteAt]

theorem drop_length_append (l₁ l₂ : List Nat) (n : Nat) (h : n = l₁.length) :
    (l₁ ++ l₂).drop n = l₂ := by
  subst h
  exact List.drop_left _ _

theorem take_length_append (l₁ l₂ : List Nat) (n : Nat) (h : n = l₁.length) :
    (l₁ ++ l₂).take n = l₁ := by
  subst h
  exact List.take_left _ _

theorem header_parse_of_serialize (h : NtpHeaderV3V4) (version : Nat)
    (hv : version = 3 ∨ version = 4) (hw : wellFormedHeader h = true) (rest : List Nat) :
    NtpHeaderV3V4.deserialize (NtpHeaderV3V4.serialize h version ++ rest) =
      .ok (h, 48) := by
  have hb0 : ((h.leap.to_bits <<< 6 ||| (version <<< 3) % 256 ||| h.mode.to_bits) &&& 0xC0)
        >>> 6 = h.leap.to_bits ∧
      ((h.leap.to_bits <<< 6 ||| (version <<< 3) % 256 ||| h.mode.to_bits) &&& 0x38) >>> 3 =
        version ∧
      (h.leap.to_bits <<< 6 ||| (version <<< 3) % 256 ||| h.mode.to_bits) &&& 0x07 =
        h.mode.to_bits ∧
      (h.leap.to_bits <<< 6 ||| (version <<< 3) % 256 ||| h.mode.to_bits) < 256 := by
    rcases hv with hv | hv <;> subst hv
    · exact byte0_decompose_v3 _ (leap_to_bits_lt h.leap) _ (mode_to_bits_lt h.mode)
    · exact byte0_decompose_v4 _ (leap_to_bits_lt h.leap) _ (mode_to_bits_lt h.mode)
  simp only [wellFormedHeader, decide_eq_true_eq] at hw
  obtain ⟨hs, hp, hpr, hrd, hrdi, hrid, hrts, hots, hrcts, htts⟩ := hw
  have hnorm : NtpHeaderV3V4.serialize h version ++ rest =
      (h.leap.to_bits <<< 6 ||| (version <<< 3) % 256 ||| h.mode.to_bits) ::
        h.stratum % 256 :: h.poll % 256 :: h.precision % 256 ::
        (h.root_delay ++ (h.root_dispersion ++ (h.reference_id ++
          (h.reference_timestamp ++ (h.origin_timestamp ++ (h.receive_timestamp ++
            (h.transmit_timestamp ++ rest))))))) := by
    simp [NtpHeaderV3V4.serialize, List.append_assoc]
  rw [hnorm]
  have hlen : ((h.leap.to_bits <<< 6 ||| (version <<< 3) % 256 ||| h.mode.to_bits) ::
      h.stratum % 256 :: h.poll % 256 :: h.precision % 256 ::
      (h.root_delay ++ (h.root_dispersion ++ (h.reference_id ++
        (h.reference_timestamp ++ (h.origin_timestamp ++ (h.receive_timestamp ++
          (h.transmit_timestamp ++ rest)))))))).length = 48 + rest.length := by
    simp
    omega
  have d4 : ((h.leap.to_bits <<< 6 ||| (version <<< 3) % 256 ||| h.mode.to_bits) ::
      h.stratum % 256 :: h.poll % 256 :: h.precision % 256 ::
      (h.root_delay ++ (h.root_dispersion ++ (h.reference_id ++
        (h.reference_timestamp ++ (h.origin_timestamp ++ (h.receive_timestamp ++
          (h.transmit_timestamp ++ rest)))))))).drop 4 =
      h.root_delay ++ (h.root_dispersion ++ (h.reference_id ++
        (h.reference_timestamp ++ (h.origin_timestamp ++ (h.receive_timestamp ++
          (h.transmit_timestamp ++ rest)))))) := rfl
  have d8 : ((h.leap.to_bits <<< 6 ||| (version <<< 3) % 256 ||| h.mode.to_bits) ::
      h.stratum % 256 :: h.poll % 256 :: h.precision % 256 ::
      (h.root_delay ++ (h.root_dispersion ++ (h.reference_id ++
        (h.reference_timestamp ++ (h.origin_timestamp ++ (h.receive_timestamp ++
          (h.transmit_timestamp ++ rest)))))))).drop 8 =
      h.root_dispersion ++ (h.reference_id ++
        (h.reference_timestamp ++ (h.origin_timestamp ++ (h.receive_timestamp ++
          (h.transmit_timestamp ++ rest))))) := by
    rw [show (8 : Nat) = 4 + 4 from rfl, ← List.drop_drop, d4]
    exact drop_length_append _ _ _ (by omega)
  have d12 : ((h.leap.to_bits <<< 6 ||| (version <<< 3) % 256 ||| h.mode.to_bits) ::
      h.stratum % 256 :: h.poll % 256 :: h.precision % 256 ::
      (h.root_delay ++ (h.root_dispersion ++ (h.reference_id ++
        (h.reference_timestamp ++ (h.origin_timestamp ++ (h.receive_timestamp ++
          (h.transmit_timestamp ++ rest)))))))).drop 12 =
      h.reference_id ++
        (h.reference_timestamp ++ (h.origin_timestamp ++ (h.receive_timestamp ++
          (h.transmit_timestamp ++ rest)))) := by
    rw [show (12 : Nat) = 8 + 4 from rfl, ← List.drop_drop, d8]
    exact drop_length_append _ _ _ (by omega)
  have d16 : ((h.leap.to_bits <<< 6 ||| (version <<< 3) % 256 ||| h.mode.to_bits) ::
      h.stratum % 256 :: h.poll % 256 :: h.precision % 256 ::
      (h.root_delay ++ (h.root_dispersion ++ (h.reference_id ++
        (h.reference_timestamp ++ (h.origin_timestamp ++ (h.receive_timestamp ++
          (h.transmit_timestamp ++ rest)))))))).drop 16 =
      h.reference_timestamp ++ (h.origin_timestamp ++ (h.receive_timestamp ++
        (h.transmit_timestamp ++ rest))) := by
    rw [show (16 : Nat) = 12 + 4 from rfl, ← List.drop_drop, d12]
    exact drop_length_append _ _ _ (by omega)
  have d24 : ((h.leap.to_bits <<< 6 ||| (version <<< 3) % 256 ||| h.mode.to_bits) ::
      h.stratum % 256 :: h.poll % 256 :: h.precision % 256 ::
      (h.root_delay ++ (h.root_dispersion ++ (h.reference_id ++
        (h.reference_timestamp ++ (h.origin_timestamp ++ (h.receive_timestamp ++
          (h.transmit_timestamp ++ rest)))))))).drop 24 =
      h.origin_timestamp ++ (h.receive_timestamp ++ (h.transmit_timestamp ++ rest)) := by
    rw [show (24 : Nat) = 16 + 8 from rfl, ← List.drop_drop, d16]
    exact drop_length_append _ _ _ (by omega)
  have d32 : ((h.leap.to_bits <<< 6 ||| (version <<< 3) % 256 ||| h.mode.to_bits) ::
      h.stratum % 256 :: h.poll % 256 :: h.precision % 256 ::
      (h.root_delay ++ (h.root_dispersion ++ (h.reference_id ++
        (h.reference_timestamp ++ (h.origin_timestamp ++ (h.receive_timestamp ++
          (h.transmit_timestamp ++ rest)))))))).drop 32 =
      h.receive_timestamp ++ (h.transmit_timestamp ++ rest) := by
    rw [show (32 : Nat) = 24 + 8 from rfl, ← List.drop_drop, d24]
    exact drop_length_append _ _ _ (by omega)
  have d40 : ((h.leap.to_bits <<< 6 ||| (version <<< 3) % 256 ||| h.mode.to_bits) ::
      h.stratum % 256 :: h.poll % 256 :: h.precision % 256 ::
      (h.root_delay ++ (h.root_dispersion ++ (h.reference_id ++
        (h.reference_timestamp ++ (h.origin_timestamp ++ (h.receive_timestamp ++
          (h.transmit_timestamp ++ rest)))))))).drop 40 =
      h.transmit_timestamp ++ rest := by
    rw [show (40 : Nat) = 32 + 8 from rfl, ← List.drop_drop, d32]
    exact drop_length_append _ _ _ (by omega)
  unfold NtpHeaderV3V4.deserialize NtpHeaderV3V4.LENGTH
  rw [if_neg (by rw [hlen]; omega)]
  refine congrArg _ (Prod.ext ?_ rfl)
  refine NtpHeaderV3V4.ext ?_ ?_ ?_ ?_ ?_ ?_ ?_ ?_ ?_ ?_ ?_ ?_ <;> dsimp only
  · show NtpLeapIndicator.from_bits
      (((h.leap.to_bits <<< 6 ||| (version <<< 3) % 256 ||| h.mode.to_bits) &&& 0xC0) >>> 6)
      = h.leap
    rw [hb0.1, leap_from_to_bits]
  · show NtpAssociationMode.from_bits
      ((h.leap.to_bits <<< 6 ||| (version <<< 3) % 256 ||| h.mode.to_bits) &&& 0x07)
      = h.mode
    rw [hb0.2.2.1, mode_from_to_bits]
  · show h.stratum % 256 = h.stratum
    omega
  · show h.poll % 256 = h.poll
    omega
  · show h.precision % 256 = h.precision
    omega
  · show listSlice _ 4 8 = h.root_delay
    unfold listSlice
    rw [d4]
    exact take_length_append _ _ _ (by omega)
  · show listSlice _ 8 12 = h.root_dispersion
    unfold listSlice
    rw [d8]
    exact take_length_append _ _ _ (by omega)
  · show listSlice _ 12 16 = h.reference_id
    unfold listSlice
    rw [d12]
    exact take_length_append _ _ _ (by omega)
  · show listSlice _ 16 24 = h.reference_timestamp
    unfold listSlice
    rw [d16]
    exact take_length_append _ _ _ (by omega)
  · show listSlice _ 24 32 = h.origin_timestamp
    unfold listSlice
    rw [d24]
    exact take_length_append _ _ _ (by omega)
  · show listSlice _ 32 40 = h.receive_timestamp
    unfold listSlice
    rw [d32]
    exact take_length_append _ _ _ (by omega)
  · show listSlice _ 40 48 = h.transmit_timestamp
    unfold listSlice
    rw [d40]
    exact take_length_append _ _ _ (by omega)

/-! ## Serializer shape and MAC round-trip lemmas -/

theorem efd_serialize_no_container (us : List ExtensionField) (packet_so_far : List Nat)
    (cipher : Cipher) :
    ExtensionFieldData.serialize
      { authenticated := [], encrypted := [], untrusted := us } packet_so_far cipher =
      serializeFields us := by
  unfold ExtensionFieldData.serialize
  simp [serializeFields_nil]

theorem efd_serialize_with_container (as es us : List ExtensionField)
    (packet_so_far : List Nat) (cipher : Cipher) (hne : as ≠ [] ∨ es ≠ []) :
    ExtensionFieldData.serialize
      { authenticated := as, encrypted := es, untrusted := us } packet_so_far cipher =
      serializeFields as ++
        (encryptedFrame nts_nonce
          (cipher.encrypt nts_nonce (serializeFields es)
            (packet_so_far ++ serializeFields as)) ++ serializeFields us) := by
  unfold ExtensionFieldData.serialize
  dsimp only
  rw [if_pos (by
    rcases hne with hne | hne
    · left; simpa using hne
    · right; simpa using hne)]
  rw [encode_encryped_eq_frame]
  simp [List.append_assoc]

theorem macBytes_length (mac : Option Mac) (hwm : wellFormedMac mac = true) :
    (macBytes mac).length ≤ 27 ∧
    (mac = none → macBytes mac = []) ∧
    (∀ m, mac = some m → (macBytes mac).length = 4 + m.mac.length) := by
  cases mac with
  | none =>
    refine ⟨?_, ?_, ?_⟩
    · simp [macBytes]
    · intro hc
      rfl
    · intro m hm
      cases hm
  | some m =>
    simp only [wellFormedMac, decide_eq_true_eq] at hwm
    refine ⟨?_, ?_, ?_⟩
    · simp [macBytes, Mac.serialize, u32_be]
      omega
    · intro hc
      cases hc
    · intro m' hm'
      cases hm'
      simp [macBytes, Mac.serialize, u32_be]
      omega

theorem mac_parse_of_serialize (m : Mac) (hwm : wellFormedMac (some m) = true) :
    Mac.deserialize m.serialize = .ok m := by
  simp only [wellFormedMac, decide_eq_true_eq] at hwm
  have hnorm : m.serialize = m.keyid / 16777216 % 256 :: m.keyid / 65536 % 256 ::
      m.keyid / 256 % 256 :: m.keyid % 256 :: m.mac := by
    simp [Mac.serialize, u32_be]
  rw [hnorm]
  unfold Mac.deserialize
  rw [if_neg (by unfold Mac.MAXIMUM_SIZE; simp; omega)]
  have hk : readU32 (m.keyid / 16777216 % 256 :: m.keyid / 65536 % 256 ::
      m.keyid / 256 % 256 :: m.keyid % 256 :: m.mac) 0 = m.keyid := by
    simp [readU32]
    omega
  rw [hk]
  rfl

theorem packet_serialize_version (h : NtpHeaderV3V4) (version : Nat)
    (hv : version = 3 ∨ version = 4) (rest : List Nat) :
    (byteAt (NtpHeaderV3V4.serialize h version ++ rest) 0 &&& 0x38) >>> 3 = version := by
  rw [header_serialize_byte0]
  rcases hv with hv | hv <;> subst hv
  · exact (byte0_decompose_v3 _ (leap_to_bits_lt h.leap) _ (mode_to_bits_lt h.mode)).2.1
  · exact (byte0_decompose_v4 _ (leap_to_bits_lt h.leap) _ (mode_to_bits_lt h.mode)).2.1

/-! ## Packet-level round-trip (parse after serialize) -/

theorem packet_roundtrip_v3 (h : NtpHeaderV3V4) (mac : Option Mac) (cipher : Cipher)
    (hw : wellFormedHeader h = true) (hwm : wellFormedMac mac = true) :
    NtpPacket.deserialize
      (NtpPacket.serialize
        { header := .V3 h, efdata := ExtensionFieldData.default, mac := mac } cipher)
      cipher =
      .ok { header := .V3 h, efdata := ExtensionFieldData.default, mac := mac } := by
  have hsl := header_serialize_length h 3 hw
  have hm := macBytes_length mac hwm
  have hser : NtpPacket.serialize
      { header := .V3 h, efdata := ExtensionFieldData.default, mac := mac } cipher =
      NtpHeaderV3V4.serialize h 3 ++ macBytes mac := by
    cases mac <;> rfl
  rw [hser]
  have hlen : (NtpHeaderV3V4.serialize h 3 ++ macBytes mac).length =
      48 + (macBytes mac).length := by
    simp [hsl]
  have hne : NtpHeaderV3V4.serialize h 3 ++ macBytes mac ≠ [] := by
    intro hc
    have := congrArg List.length hc
    rw [hlen] at this
    simp at this
  unfold NtpPacket.deserialize
  rw [if_neg (by simp [List.isEmpty_iff, hne])]
  dsimp only
  rw [packet_serialize_version h 3 (Or.inl rfl) (macBytes mac)]
  rw [if_pos rfl]
  rw [header_parse_of_serialize h 3 (Or.inl rfl) hw (macBytes mac)]
  dsimp only
  cases mac with
  | none =>
    rw [if_neg (by rw [hlen]; simp [macBytes])]
  | some m =>
    rw [if_pos (by rw [hlen]; have := hm.2.2 m rfl; omega)]
    rw [drop_length_append _ _ _ hsl.symm]
    rw [show macBytes (some m) = m.serialize from rfl, mac_parse_of_serialize m hwm]

theorem packet_roundtrip_v4_plain (h : NtpHeaderV3V4) (us : List ExtensionField)
    (mac : Option Mac) (cipher : Cipher)
    (hw : wellFormedHeader h = true) (hwm : wellFormedMac mac = true)
    (hvu : ∀ f ∈ us, validField f = true ∧ 28 ≤ (ExtensionField.serialize f).length)
    (halign : us = [] ∨ (macBytes mac).length % 4 = 0) :
    NtpPacket.deserialize
      (NtpPacket.serialize
        { header := .V4 h,
          efdata := { authenticated := [], encrypted := [], untrusted := us },
          mac := mac } cipher) cipher =
      .ok { header := .V4 h,
            efdata := { authenticated := [], encrypted := [], untrusted := us },
            mac := mac } := by
  have hsl := header_serialize_length h 4 hw
  have hm := macBytes_length mac hwm
  have hser : NtpPacket.serialize
      { header := .V4 h,
        efdata := { authenticated := [], encrypted := [], untrusted := us },
        mac := mac } cipher =
      NtpHeaderV3V4.serialize h 4 ++ (serializeFields us ++ macBytes mac) := by
    unfold NtpPacket.serialize
    dsimp only
    rw [efd_serialize_no_container]
    cases mac with
    | none => simp [macBytes]
    | some m => simp [macBytes, List.append_assoc]
  rw [hser]
  have hlen : (NtpHeaderV3V4.serialize h 4 ++ (serializeFields us ++ macBytes mac)).length =
      48 + ((serializeFields us).length + (macBytes mac).length) := by
    simp [hsl]
  have hne : NtpHeaderV3V4.serialize h 4 ++ (serializeFields us ++ macBytes mac) ≠ [] := by
    intro hc
    have := congrArg List.length hc
    rw [hlen] at this
    simp at this
  have hdrop48 : (NtpHeaderV3V4.serialize h 4 ++
      (serializeFields us ++ macBytes mac)).drop 48 = serializeFields us ++ macBytes mac :=
    drop_length_append _ _ _ hsl.symm
  unfold NtpPacket.deserialize
  rw [if_neg (by simp [List.isEmpty_iff, hne])]
  dsimp only
  rw [packet_serialize_version h 4 (Or.inr rfl) (serializeFields us ++ macBytes mac)]
  rw [if_neg (by omega), if_pos rfl]
  rw [header_parse_of_serialize h 4 (Or.inr rfl) hw (serializeFields us ++ macBytes mac)]
  dsimp only
  rcases halign with hus | halign4
  · subst hus
    rw [efd_deserialize_no_fields _ 48 cipher (by
      rw [hlen]
      have h0 : (serializeFields []).length = 0 := by simp [serializeFields_nil]
      omega)]
    dsimp only
    cases mac with
    | none =>
      rw [if_neg (by
        rw [hlen]
        have h0 : (serializeFields []).length = 0 := by simp [serializeFields_nil]
        have h1 : (macBytes (none : Option Mac)).length = 0 := rfl
        omega)]
    | some m =>
      rw [if_pos (by rw [hlen]; have := hm.2.2 m rfl; omega)]
      rw [hdrop48]
      rw [show serializeFields [] ++ macBytes (some m) = m.serialize by
        simp [serializeFields_nil, macBytes]]
      rw [mac_parse_of_serialize m hwm]
  · rw [efd_deserialize_fields_only _ cipher us (macBytes mac) hvu hdrop48
      (by rw [hlen]; omega) (by omega) halign4]
    dsimp only
    cases mac with
    | none =>
      rw [if_neg (by
        rw [hlen]
        have h0 : (macBytes (none : Option Mac)).length = 0 := by simp [macBytes]
        omega)]
    | some m =>
      rw [if_pos (by rw [hlen]; have := hm.2.2 m rfl; omega)]
      have hdropoff : (NtpHeaderV3V4.serialize h 4 ++
          (serializeFields us ++ macBytes (some m))).drop
          (48 + (serializeFields us).length) = macBytes (some m) := by
        rw [← List.drop_drop, hdrop48]
        exact drop_length_append _ _ _ rfl
      rw [hdropoff]
      rw [show macBytes (some m) = m.serialize from rfl, mac_parse_of_serialize m hwm]

theorem nts_nonce_length : nts_nonce.length = 16 := by decide

theorem packet_roundtrip_v4_container (h : NtpHeaderV3V4) (as es us : List ExtensionField)
    (mac : Option Mac) (cipher : Cipher)
    (hw : wellFormedHeader h = true) (hwm : wellFormedMac mac = true)
    (hvas : ∀ f ∈ as, validField f = true ∧ 28 ≤ (ExtensionField.serialize f).length)
    (hves : ∀ f ∈ es, validField f = true)
    (hvus : ∀ f ∈ us, validField f = true ∧ 28 ≤ (ExtensionField.serialize f).length)
    (hne : as ≠ [] ∨ es ≠ [])
    (hct1 : 1 ≤ (cipher.encrypt nts_nonce (serializeFields es)
      (NtpHeaderV3V4.serialize h 4 ++ serializeFields as)).length)
    (hct2 : (cipher.encrypt nts_nonce (serializeFields es)
      (NtpHeaderV3V4.serialize h 4 ++ serializeFields as)).length ≤ 65504)
    (hdec : cipher.decrypt nts_nonce
      (cipher.encrypt nts_nonce (serializeFields es)
        (NtpHeaderV3V4.serialize h 4 ++ serializeFields as))
      (NtpHeaderV3V4.serialize h 4 ++ serializeFields as) = some (serializeFields es))
    (halign : (macBytes mac).length % 4 = 0) :
    NtpPacket.deserialize
      (NtpPacket.serialize
        { header := .V4 h,
          efdata := { authenticated := as, encrypted := es, untrusted := us },
          mac := mac } cipher) cipher =
      .ok { header := .V4 h,
            efdata := { authenticated := as, encrypted := es, untrusted := us },
            mac := mac } := by
  have hsl := header_serialize_length h 4 hw
  have hm := macBytes_length mac hwm
  have hflen := encryptedFrame_length nts_nonce
    (cipher.encrypt nts_nonce (serializeFields es)
      (NtpHeaderV3V4.serialize h 4 ++ serializeFields as)) nts_nonce_length
  have hser : NtpPacket.serialize
      { header := .V4 h,
        efdata := { authenticated := as, encrypted := es, untrusted := us },
        mac := mac } cipher =
      NtpHeaderV3V4.serialize h 4 ++
        (serializeFields as ++
          (encryptedFrame nts_nonce
            (cipher.encrypt nts_nonce (serializeFields es)
              (NtpHeaderV3V4.serialize h 4 ++ serializeFields as)) ++
            (serializeFields us ++ macBytes mac))) := by
    unfold NtpPacket.serialize
    dsimp only
    rw [efd_serialize_with_container as es us _ cipher hne]
    cases mac with
    | none => simp [macBytes, List.append_assoc]
    | some m => simp [macBytes, List.append_assoc]
  rw [hser]
  have hlen : (NtpHeaderV3V4.serialize h 4 ++
      (serializeFields as ++
        (encryptedFrame nts_nonce
          (cipher.encrypt nts_nonce (serializeFields es)
            (NtpHeaderV3V4.serialize h 4 ++ serializeFields as)) ++
          (serializeFields us ++ macBytes mac)))).length =
      48 + ((serializeFields as).length +
        ((encryptedFrame nts_nonce
          (cipher.encrypt nts_nonce (serializeFields es)
            (NtpHeaderV3V4.serialize h 4 ++ serializeFields as))).length +
          ((serializeFields us).length + (macBytes mac).length))) := by
    simp [hsl]
  have hne2 : NtpHeaderV3V4.serialize h 4 ++
      (serializeFields as ++
        (encryptedFrame nts_nonce
          (cipher.encrypt nts_nonce (serializeFields es)
            (NtpHeaderV3V4.serialize h 4 ++ serializeFields as)) ++
          (serializeFields us ++ macBytes mac))) ≠ [] := by
    intro hc
    have := congrArg List.length hc
    rw [hlen] at this
    simp at this
  have hdrop48 : (NtpHeaderV3V4.serialize h 4 ++
      (serializeFields as ++
        (encryptedFrame nts_nonce
          (cipher.encrypt nts_nonce (serializeFields es)
            (NtpHeaderV3V4.serialize h 4 ++ serializeFields as)) ++
          (serializeFields us ++ macBytes mac)))).drop 48 =
      serializeFields as ++
        (encryptedFrame nts_nonce
          (cipher.encrypt nts_nonce (serializeFields es)
            (NtpHeaderV3V4.serialize h 4 ++ serializeFields as)) ++
          (serializeFields us ++ macBytes mac)) :=
    drop_length_append _ _ _ hsl.symm
  have htake : (NtpHeaderV3V4.serialize h 4 ++
      (serializeFields as ++
        (encryptedFrame nts_nonce
          (cipher.encrypt nts_nonce (serializeFields es)
            (NtpHeaderV3V4.serialize h 4 ++ serializeFields as)) ++
          (serializeFields us ++ macBytes mac)))).take
      (48 + (serializeFields as).length) =
      NtpHeaderV3V4.serialize h 4 ++ serializeFields as := by
    rw [show NtpHeaderV3V4.serialize h 4 ++
      (serializeFields as ++
        (encryptedFrame nts_nonce
          (cipher.encrypt nts_nonce (serializeFields es)
            (NtpHeaderV3V4.serialize h 4 ++ serializeFields as)) ++
          (serializeFields us ++ macBytes mac))) =
      (NtpHeaderV3V4.serialize h 4 ++ serializeFields as) ++
        (encryptedFrame nts_nonce
          (cipher.encrypt nts_nonce (serializeFields es)
            (NtpHeaderV3V4.serialize h 4 ++ serializeFields as)) ++
          (serializeFields us ++ macBytes mac)) from by simp [List.append_assoc]]
    exact take_length_append _ _ _ (by simp [hsl])
  unfold NtpPacket.deserialize
  rw [if_neg (by simp [List.isEmpty_iff, hne2])]
  dsimp only
  rw [packet_serialize_version h 4 (Or.inr rfl) _]
  rw [if_neg (by omega), if_pos rfl]
  rw [header_parse_of_serialize h 4 (Or.inr rfl) hw _]
  dsimp only
  rw [efd_deserialize_with_container _ cipher as es us nts_nonce
    (cipher.encrypt nts_nonce (serializeFields es)
      (NtpHeaderV3V4.serialize h 4 ++ serializeFields as))
    (macBytes mac) hvas hves hvus hdrop48 (by rw [hlen]; omega) nts_nonce_length hct1 hct2
    (by rw [htake]; exact hdec) (by omega) halign]
  dsimp only
  cases mac with
  | none =>
    rw [if_neg (by
      rw [hlen]
      have h0 : (macBytes (none : Option Mac)).length = 0 := rfl
      omega)]
  | some m =>
    rw [if_pos (by rw [hlen]; have := hm.2.2 m rfl; omega)]
    have hdropoff : (NtpHeaderV3V4.serialize h 4 ++
        (serializeFields as ++
          (encryptedFrame nts_nonce
            (cipher.encrypt nts_nonce (serializeFields es)
              (NtpHeaderV3V4.serialize h 4 ++ serializeFields as)) ++
            (serializeFields us ++ macBytes (some m))))).drop
        (48 + (serializeFields as).length +
          (encryptedFrame nts_nonce
            (cipher.encrypt nts_nonce (serializeFields es)
              (NtpHeaderV3V4.serialize h 4 ++ serializeFields as))).length +
          (serializeFields us).length) = macBytes (some m) := by
      rw [show NtpHeaderV3V4.serialize h 4 ++
        (serializeFields as ++
          (encryptedFrame nts_nonce
            (cipher.encrypt nts_nonce (serializeFields es)
              (NtpHeaderV3V4.serialize h 4 ++ serializeFields as)) ++
            (serializeFields us ++ macBytes (some m)))) =
        (NtpHeaderV3V4.serialize h 4 ++
          (serializeFields as ++
            (encryptedFrame nts_nonce
              (cipher.encrypt nts_nonce (serializeFields es)
                (NtpHeaderV3V4.serialize h 4 ++ serializeFields as)) ++
              serializeFields us))) ++ macBytes (some m) from by simp [List.append_assoc]]
      exact drop_length_append _ _ _ (by
        simp only [List.length_append, hsl]
        omega)
    rw [hdropoff]
    rw [show macBytes (some m) = m.serialize from rfl, mac_parse_of_serialize m hwm]

/-! ## Reverse direction: accepted bytes re-serialize to themselves -/

theorem byteAt_lt256 (l : List Nat) (i : Nat) (h : ∀ b ∈ l, b < 256) : byteAt l i < 256 := by
  rcases byteAt_lt l i h with h' | h'
  · exact h'
  · omega

theorem readU16_lt (l : List Nat) (i : Nat) (h : ∀ b ∈ l, b < 256) : readU16 l i < 65536 := by
  have h1 := byteAt_lt256 l i h
  have h2 := byteAt_lt256 l (i + 1) h
  unfold readU16
  omega

theorem u16_be_readU16 (l : List Nat) (i : Nat) (h : ∀ b ∈ l, b < 256) :
    u16_be (readU16 l i) = [byteAt l i, byteAt l (i + 1)] := by
  have h1 := byteAt_lt256 l i h
  have h2 := byteAt_lt256 l (i + 1) h
  unfold u16_be readU16
  have e1 : (byteAt l i * 256 + byteAt l (i + 1)) / 256 % 256 = byteAt l i := by omega
  have e2 : (byteAt l i * 256 + byteAt l (i + 1)) % 256 = byteAt l (i + 1) := by omega
  rw [e1, e2]

theorem take_four (l : List Nat) (h : 4 ≤ l.length) :
    l.take 4 = [byteAt l 0, byteAt l 1, byteAt l 2, byteAt l 3] := by
  rcases l with _ | ⟨a, _ | ⟨b, _ | ⟨c, _ | ⟨d, t⟩⟩⟩⟩ <;> simp at h <;> rfl

theorem from_type_id_spec (t : Nat) :
    (t = 0x104 ∧ ExtensionFieldTypeId.from_type_id t = .UniqueIdentifier) ∨
    (t = 0x204 ∧ ExtensionFieldTypeId.from_type_id t = .NtsCookie) ∨
    (t = 0x304 ∧ ExtensionFieldTypeId.from_type_id t = .NtsCookiePlaceholder) ∨
    (t = 0x404 ∧ ExtensionFieldTypeId.from_type_id t = .NtsEncryptedField) ∨
    (t ≠ 0x104 ∧ t ≠ 0x204 ∧ t ≠ 0x304 ∧ t ≠ 0x404 ∧
      ExtensionFieldTypeId.from_type_id t = .Unknown t) := by
  by_cases h1 : t = 0x104
  · subst h1; left; exact ⟨rfl, rfl⟩
  by_cases h2 : t = 0x204
  · subst h2; right; left; exact ⟨rfl, rfl⟩
  by_cases h3 : t = 0x304
  · subst h3; right; right; left; exact ⟨rfl, rfl⟩
  by_cases h4 : t = 0x404
  · subst h4; right; right; right; left; exact ⟨rfl, rfl⟩
  right; right; right; right
  refine ⟨h1, h2, h3, h4, ?_⟩
  unfold ExtensionFieldTypeId.from_type_id
  split
  · omega
  · omega
  · omega
  · omega
  · rfl

theorem uef_deserialize_inv (data : List Nat) (u : UnparsedExtensionField)
    (hu : UnparsedExtensionField.deserialize data = .ok u) :
    4 ≤ data.length ∧ data.length % 4 = 0 ∧
    16 ≤ readU16 data 2 ∧ readU16 data 2 ≤ data.length ∧
    u = { type_id := ExtensionFieldTypeId.from_type_id (readU16 data 0),
          message_bytes := listSlice data 4 (readU16 data 2) } ∧
    (∀ b ∈ listSlice data (readU16 data 2)
        (next_multiple_of (readU16 data 2) 4), b = 0) := by
  unfold UnparsedExtensionField.deserialize at hu
  by_cases h1 : data.length < 4 ∨ data.length % 4 ≠ 0
  · rw [if_pos h1] at hu; cases hu
  rw [if_neg h1] at hu
  dsimp only at hu
  by_cases h2 : readU16 data 2 < UnparsedExtensionField.MINIMUM_SIZE
  · rw [if_pos h2] at hu; cases hu
  rw [if_neg h2] at hu
  cases h3 : sliceGet data 4 (readU16 data 2) with
  | none => rw [h3] at hu; cases hu
  | some value =>
    rw [h3] at hu
    dsimp only at hu
    by_cases h4 : (listSlice data (readU16 data 2)
        (next_multiple_of (readU16 data 2) 4)).any (fun b => b ≠ 0)
    · rw [if_pos h4] at hu; cases hu
    rw [if_neg h4] at hu
    cases hu
    obtain ⟨hv, -, hble, -⟩ := sliceGet_eq_some h3
    unfold UnparsedExtensionField.MINIMUM_SIZE at h2
    refine ⟨by omega, by omega, by omega, hble, by rw [hv], ?_⟩
    intro b hb
    by_contra hbne
    apply h4
    rw [List.any_eq_true]
    exact ⟨b, hb, by simpa using hbne⟩

theorem uef_frame_reserialize (data : List Nat) (u : UnparsedExtensionField)
    (f : ExtensionField) (hbytes : ∀ b ∈ data, b < 256)
    (hu : UnparsedExtensionField.deserialize data = .ok u)
    (hf : ExtensionFieldData.decode_basic_field u = .ok (some f)) :
    ExtensionField.serialize f = data.take u.wire_length ∧
    u.wire_length % 4 = 0 ∧ 4 ≤ u.wire_length ∧ u.wire_length ≤ data.length := by
  obtain ⟨hlen4, hmod, hfl16, hflle, huq, hpad⟩ := uef_deserialize_inv data u hu
  have htid : u.type_id = ExtensionFieldTypeId.from_type_id (readU16 data 0) := by
    rw [huq]
  have hmsg : u.message_bytes = listSlice data 4 (readU16 data 2) := by
    rw [huq]
  have hvlen : u.message_bytes.length = readU16 data 2 - 4 := by
    rw [hmsg]; exact listSlice_length hflle
  have hpadle := le_next_multiple_of_four (readU16 data 2)
  have hpadmod := next_multiple_of_four_mod (readU16 data 2)
  have hpad4le : next_multiple_of (readU16 data 2) 4 ≤ data.length :=
    next_multiple_of_four_le_of_le _ _ hflle hmod
  have hsplit : next_multiple_of (4 + (readU16 data 2 - 4)) 4 =
      4 + next_multiple_of (readU16 data 2 - 4) 4 :=
    next_multiple_of_four_add_left 4 _ (by decide)
  have hwire : u.wire_length = next_multiple_of (readU16 data 2) 4 := by
    unfold UnparsedExtensionField.wire_length
    rw [hvlen, ← hsplit]
    congr 1
    omega
  have htlt := readU16_lt data 0 hbytes
  have hfllt := readU16_lt data 2 hbytes
  have htake : data.take (next_multiple_of (readU16 data 2) 4) =
      [byteAt data 0, byteAt data 1, byteAt data 2, byteAt data 3] ++
        (listSlice data 4 (readU16 data 2) ++
          listSlice data (readU16 data 2) (next_multiple_of (readU16 data 2) 4)) := by
    rw [show data.take (next_multiple_of (readU16 data 2) 4) =
      listSlice data 0 (next_multiple_of (readU16 data 2) 4) from
        (listSlice_zero data _).symm]
    rw [← listSlice_append_listSlice data 0 4 (next_multiple_of (readU16 data 2) 4)
      (by omega) (by omega)]
    rw [← listSlice_append_listSlice data 4 (readU16 data 2)
      (next_multiple_of (readU16 data 2) 4) (by omega) hpadle]
    rw [listSlice_zero]
    rw [take_four data (by omega)]
  have hpadrep : listSlice data (readU16 data 2) (next_multiple_of (readU16 data 2) 4) =
      List.replicate
        (next_multiple_of (readU16 data 2 - 4) 4 - (readU16 data 2 - 4)) 0 := by
    rw [List.eq_replicate_of_mem hpad]
    congr 1
    rw [listSlice_length hpad4le]
    have h2 : next_multiple_of (readU16 data 2) 4 =
        4 + next_multiple_of (readU16 data 2 - 4) 4 := by
      rw [← hsplit]
      congr 1
      omega
    have h3 := le_next_multiple_of_four (readU16 data 2 - 4)
    omega
  rw [hwire]
  refine ⟨?_, hpadmod, by omega, hpad4le⟩
  rw [htake]
  have hu16t := u16_be_readU16 data 0 hbytes
  have hu16fl := u16_be_readU16 data 2 hbytes
  unfold ExtensionFieldData.decode_basic_field at hf
  rw [htid] at hf
  rw [hmsg] at hf
  rcases from_type_id_spec (readU16 data 0) with
    ⟨ht, hid⟩ | ⟨ht, hid⟩ | ⟨ht, hid⟩ | ⟨ht, hid⟩ | ⟨ht1, ht2, ht3, ht4, hid⟩
  · -- UniqueIdentifier
    rw [hid] at hf
    dsimp only at hf
    unfold ExtensionField.decode_unique_identifier at hf
    by_cases h32 : (listSlice data 4 (readU16 data 2)).length < 32
    · rw [if_pos h32] at hf; cases hf
    rw [if_neg h32] at hf
    dsimp only at hf
    cases hf
    show ExtensionField.encode_unique_identifier _ = _
    unfold ExtensionField.encode_unique_identifier
    rw [listSlice_length hflle]
    rw [show (4 + (readU16 data 2 - 4)) % 65536 = readU16 data 2 from by omega]
    rw [← ht, hu16t, hu16fl, ← hpadrep]
    simp [List.append_assoc]
  · -- NtsCookie
    rw [hid] at hf
    dsimp only at hf
    unfold ExtensionField.decode_nts_cookie at hf
    dsimp only at hf
    cases hf
    show ExtensionField.encode_nts_cookie _ = _
    unfold ExtensionField.encode_nts_cookie
    rw [listSlice_length hflle]
    rw [show (4 + (readU16 data 2 - 4)) % 65536 = readU16 data 2 from by omega]
    rw [← ht, hu16t, hu16fl, ← hpadrep]
    simp [List.append_assoc]
  · -- NtsCookiePlaceholder
    rw [hid] at hf
    dsimp only at hf
    unfold ExtensionField.decode_nts_cookie_placeholder at hf
    by_cases hz : (listSlice data 4 (readU16 data 2)).any (fun b => b ≠ 0)
    · rw [if_pos hz] at hf; cases hf
    rw [if_neg hz] at hf
    dsimp only at hf
    cases hf
    have hz0 : ∀ b ∈ listSlice data 4 (readU16 data 2), b = 0 := by
      intro b hb
      by_contra hbne
      apply hz
      rw [List.any_eq_true]
      exact ⟨b, hb, by simpa using hbne⟩
    have hvrep : listSlice data 4 (readU16 data 2) =
        List.replicate (readU16 data 2 - 4) 0 := by
      rw [List.eq_replicate_of_mem hz0]
      rw [listSlice_length hflle]
    show ExtensionField.serialize
      (.NtsCookiePlaceholder ((listSlice data 4 (readU16 data 2)).length % 65536)) = _
    rw [listSlice_length hflle]
    show ExtensionField.encode_nts_cookie_placeholder _ = _
    unfold ExtensionField.encode_nts_cookie_placeholder
    rw [show (readU16 data 2 - 4) % 65536 % 65536 = readU16 data 2 - 4 from by omega]
    rw [show (4 + (readU16 data 2 - 4)) % 65536 = readU16 data 2 from by omega]
    rw [← ht, hu16t, hu16fl]
    rw [show List.replicate (next_multiple_of (readU16 data 2 - 4) 4) 0 =
      List.replicate (readU16 data 2 - 4) 0 ++
        List.replicate (next_multiple_of (readU16 data 2 - 4) 4 - (readU16 data 2 - 4))
          0 from by
      rw [← List.replicate_add]
      congr 1
      have := le_next_multiple_of_four (readU16 data 2 - 4)
      omega]
    rw [← hvrep, ← hpadrep]
    simp [List.append_assoc]
  · -- NtsEncryptedField: decode yields none, contradiction
    rw [hid] at hf
    dsimp only at hf
    cases hf
  · -- Unknown
    rw [hid] at hf
    dsimp only at hf
    unfold ExtensionField.decode_unknown at hf
    dsimp only at hf
    cases hf
    show ExtensionField.encode_unknown _ _ = _
    unfold ExtensionField.encode_unknown
    rw [listSlice_length hflle]
    rw [show (4 + (readU16 data 2 - 4)) % 65536 = readU16 data 2 from by omega]
    rw [show readU16 data 0 % 65536 = readU16 data 0 from by omega]
    rw [hu16t, hu16fl, ← hpadrep]
    simp [List.append_assoc]

theorem deserialize_pre_succ (data : List Nat) (fuel offset : Nat)
    (acc : List ExtensionField) :
    ExtensionFieldData.deserialize_pre data (fuel + 1) offset acc =
    if data.length - offset ≥ Mac.MAXIMUM_SIZE then
      match UnparsedExtensionField.deserialize (data.drop offset) with
      | .error e => .error e
      | .ok unparsed =>
        match ExtensionFieldData.decode_basic_field unparsed with
        | .error e => .error e
        | .ok none =>
          match UnparsedEncryptedField.from_message_bytes unparsed.message_bytes with
          | .error e => .error e
          | .ok field =>
            .ok (acc, some (field, data.take offset), offset + unparsed.wire_length)
        | .ok (some field) =>
          ExtensionFieldData.deserialize_pre data fuel (offset + unparsed.wire_length)
            (acc ++ [field])
    else .ok (acc, none, offset) := by
  conv_lhs => unfold ExtensionFieldData.deserialize_pre

theorem deserialize_pre_reserialize (data : List Nat)
    (hbytes : ∀ b ∈ data, b < 256) :
    ∀ (fuel offset : Nat) (acc fs : List ExtensionField) (off : Nat),
    ExtensionFieldData.deserialize_pre data fuel offset acc = .ok (fs, none, off) →
    data.length - offset ≤ fuel → offset ≤ data.length →
    ∃ gs, fs = acc ++ gs ∧
      serializeFields gs = listSlice data offset off ∧
      offset ≤ off ∧ off ≤ data.length ∧ data.length - off < 28 := by
  intro fuel
  induction fuel with
  | zero =>
    intro offset acc fs off h hfuel hle
    unfold ExtensionFieldData.deserialize_pre at h
    simp only [Except.ok.injEq, Prod.mk.injEq] at h
    obtain ⟨h1, -, h2⟩ := h
    subst h1
    subst h2
    exact ⟨[], by simp, by rw [serializeFields_nil, listSlice_self],
      le_refl _, hle, by omega⟩
  | succ fuel ih =>
    intro offset acc fs off h hfuel hle
    rw [deserialize_pre_succ] at h
    by_cases hg : data.length - offset ≥ Mac.MAXIMUM_SIZE
    · rw [if_pos hg] at h
      cases hd : UnparsedExtensionField.deserialize (data.drop offset) with
      | error e => rw [hd] at h; cases h
      | ok unparsed =>
        rw [hd] at h
        dsimp only at h
        cases hdec : ExtensionFieldData.decode_basic_field unparsed with
        | error e => rw [hdec] at h; cases h
        | ok ofield =>
          rw [hdec] at h
          cases ofield with
          | none =>
            dsimp only at h
            cases hfm : UnparsedEncryptedField.from_message_bytes
                unparsed.message_bytes with
            | error e => rw [hfm] at h; cases h
            | ok field => rw [hfm] at h; dsimp only at h; simp at h
          | some field =>
            dsimp only at h
            have hbytes' : ∀ b ∈ data.drop offset, b < 256 := fun b hb =>
              hbytes b (List.mem_of_mem_drop hb)
            obtain ⟨hser, hwmod, hw4, hwle⟩ :=
              uef_frame_reserialize (data.drop offset) unparsed field hbytes' hd hdec
            rw [List.length_drop] at hwle
            obtain ⟨gs, hfs, hsg, hle1, hle2, hlt⟩ :=
              ih (offset + unparsed.wire_length) (acc ++ [field]) fs off h
                (by omega) (by omega)
            refine ⟨field :: gs, by rw [hfs]; simp, ?_, by omega, hle2, hlt⟩
            rw [serializeFields_cons, hsg, hser]
            rw [show (data.drop offset).take unparsed.wire_length =
              listSlice data offset (offset + unparsed.wire_length) from by
                unfold listSlice
                congr 1
                omega]
            exact listSlice_append_listSlice data offset
              (offset + unparsed.wire_length) off (by omega) hle1
    · rw [if_neg hg] at h
      simp only [Except.ok.injEq, Prod.mk.injEq] at h
      obtain ⟨h1, -, h2⟩ := h
      subst h1
      subst h2
      unfold Mac.MAXIMUM_SIZE at hg
      exact ⟨[], by simp, by rw [serializeFields_nil, listSlice_self],
        le_refl _, hle, by omega⟩

theorem u32_be_readU32 (l : List Nat) (i : Nat) (h : ∀ b ∈ l, b < 256) :
    u32_be (readU32 l i) =
      [byteAt l i, byteAt l (i + 1), byteAt l (i + 2), byteAt l (i + 3)] := by
  have h0 := byteAt_lt256 l i h
  have h1 := byteAt_lt256 l (i + 1) h
  have h2 := byteAt_lt256 l (i + 2) h
  have h3 := byteAt_lt256 l (i + 3) h
  unfold u32_be readU32
  have e0 : (byteAt l i * 16777216 + byteAt l (i + 1) * 65536 +
      byteAt l (i + 2) * 256 + byteAt l (i + 3)) / 16777216 % 256 = byteAt l i := by
    omega
  have e1 : (byteAt l i * 16777216 + byteAt l (i + 1) * 65536 +
      byteAt l (i + 2) * 256 + byteAt l (i + 3)) / 65536 % 256 = byteAt l (i + 1) := by
    omega
  have e2 : (byteAt l i * 16777216 + byteAt l (i + 1) * 65536 +
      byteAt l (i + 2) * 256 + byteAt l (i + 3)) / 256 % 256 = byteAt l (i + 2) := by
    omega
  have e3 : (byteAt l i * 16777216 + byteAt l (i + 1) * 65536 +
      byteAt l (i + 2) * 256 + byteAt l (i + 3)) % 256 = byteAt l (i + 3) := by
    omega
  rw [e0, e1, e2, e3]

set_option maxRecDepth 4000 in
theorem byte0_reconstruct : ∀ b, b < 256 →
    (NtpLeapIndicator.from_bits ((b &&& 0xC0) >>> 6)).to_bits <<< 6 |||
      (((b &&& 0x38) >>> 3) <<< 3) % 256 |||
      (NtpAssociationMode.from_bits (b &&& 0x07)).to_bits = b := by
  decide

theorem mac_reserialize (data : List Nat) (m : Mac)
    (hbytes : ∀ b ∈ data, b < 256)
    (hm : Mac.deserialize data = .ok m) :
    Mac.serialize m = data ∧ 4 ≤ data.length ∧ data.length < 28 := by
  unfold Mac.deserialize at hm
  by_cases hg : data.length < 4 ∨ data.length ≥ Mac.MAXIMUM_SIZE
  · rw [if_pos hg] at hm; cases hm
  rw [if_neg hg] at hm
  cases hm
  unfold Mac.MAXIMUM_SIZE at hg
  refine ⟨?_, by omega, by omega⟩
  show u32_be (readU32 data 0) ++ data.drop 4 = data
  rw [u32_be_readU32 data 0 hbytes]
  rw [← take_four data (by omega)]
  exact List.take_append_drop 4 data

theorem header_reserialize (data : List Nat) (h : NtpHeaderV3V4) (hs v : Nat)
    (hbytes : ∀ b ∈ data, b < 256)
    (hd : NtpHeaderV3V4.deserialize data = .ok (h, hs))
    (hv : (byteAt data 0 &&& 0x38) >>> 3 = v) :
    NtpHeaderV3V4.serialize h v = data.take 48 ∧ hs = 48 := by
  unfold NtpHeaderV3V4.deserialize at hd
  by_cases hlen : data.length < NtpHeaderV3V4.LENGTH
  · rw [if_pos hlen] at hd; cases hd
  rw [if_neg hlen] at hd
  unfold NtpHeaderV3V4.LENGTH at hlen
  simp only [Except.ok.injEq, Prod.mk.injEq] at hd
  obtain ⟨hh, hhs⟩ := hd
  subst hh
  refine ⟨?_, hhs.symm⟩
  unfold NtpHeaderV3V4.serialize
  dsimp only
  have hb0 : (NtpLeapIndicator.from_bits ((byteAt data 0 &&& 0xC0) >>> 6)).to_bits <<< 6 |||
      (v <<< 3) % 256 |||
      (NtpAssociationMode.from_bits (byteAt data 0 &&& 0x07)).to_bits = byteAt data 0 := by
    rw [← hv]
    exact byte0_reconstruct (byteAt data 0) (byteAt_lt256 data 0 hbytes)
  have hm1 : byteAt data 1 % 256 = byteAt data 1 :=
    Nat.mod_eq_of_lt (byteAt_lt256 data 1 hbytes)
  have hm2 : byteAt data 2 % 256 = byteAt data 2 :=
    Nat.mod_eq_of_lt (byteAt_lt256 data 2 hbytes)
  have hm3 : byteAt data 3 % 256 = byteAt data 3 :=
    Nat.mod_eq_of_lt (byteAt_lt256 data 3 hbytes)
  rw [hb0, hm1, hm2, hm3]
  have hstep : ∀ a b : Nat, a ≤ b → b ≤ 48 →
      listSlice data a b ++ listSlice data b 48 = listSlice data a 48 := fun a b h1 h2 =>
    listSlice_append_listSlice data a b 48 h1 h2
  have h48 : data.take 48 = listSlice data 0 48 := (listSlice_zero data 48).symm
  rw [h48]
  rw [← hstep 0 4 (by omega) (by omega), ← hstep 4 8 (by omega) (by omega),
    ← hstep 8 12 (by omega) (by omega), ← hstep 12 16 (by omega) (by omega),
    ← hstep 16 24 (by omega) (by omega), ← hstep 24 32 (by omega) (by omega),
    ← hstep 32 40 (by omega) (by omega)]
  rw [listSlice_zero]
  rw [take_four data (by omega)]
  simp [List.append_assoc]

theorem efd_reserialize (data : List Nat) (cipher : Cipher)
    (efd : ExtensionFieldData) (off : Nat)
    (hbytes : ∀ b ∈ data, b < 256) (h48 : 48 ≤ data.length)
    (hpre : ∃ fs poff, ExtensionFieldData.deserialize_pre data data.length 48 [] =
      .ok (fs, none, poff))
    (hefd : ExtensionFieldData.deserialize data 48 cipher = .ok (efd, off)) :
    efd.authenticated = [] ∧ efd.encrypted = [] ∧
    serializeFields efd.untrusted = listSlice data 48 off ∧
    48 ≤ off ∧ off ≤ data.length ∧ data.length - off < 28 := by
  obtain ⟨fs, poff, hpeq⟩ := hpre
  obtain ⟨gs, hgs, hser, hle1, hle2, hlt⟩ :=
    deserialize_pre_reserialize data hbytes data.length 48 [] fs poff hpeq
      (by omega) h48
  unfold ExtensionFieldData.deserialize at hefd
  rw [hpeq] at hefd
  dsimp only at hefd
  rw [deserialize_post_stop data data.length poff fs hlt] at hefd
  dsimp only at hefd
  simp only [Except.ok.injEq, Prod.mk.injEq] at hefd
  obtain ⟨hefd1, hoff⟩ := hefd
  subst hoff
  rw [← hefd1]
  simp only [List.nil_append] at hgs
  subst hgs
  exact ⟨rfl, rfl, hser, hle1, hle2, hlt⟩

theorem packet_reserialize (data : List Nat) (cipher : Cipher) (p : NtpPacket)
    (hbytes : ∀ b ∈ data, b < 256)
    (hp : NtpPacket.deserialize data cipher = .ok p)
    (hpre : ∀ hh : NtpHeaderV3V4, p.header = .V4 hh →
      ∃ fs poff, ExtensionFieldData.deserialize_pre data data.length 48 [] =
        .ok (fs, none, poff)) :
    NtpPacket.serialize p cipher = data := by
  unfold NtpPacket.deserialize at hp
  by_cases hempty : data.isEmpty
  · rw [if_pos hempty] at hp; cases hp
  rw [if_neg hempty] at hp
  dsimp only at hp
  by_cases hv3 : (byteAt data 0 &&& 0x38) >>> 3 = 3
  · rw [if_pos hv3] at hp
    cases hd : NtpHeaderV3V4.deserialize data with
    | error e => rw [hd] at hp; cases hp
    | ok pr =>
      obtain ⟨header, header_size⟩ := pr
      rw [hd] at hp
      dsimp only at hp
      obtain ⟨hdr3, hhs⟩ := header_reserialize data header header_size 3 hbytes hd hv3
      subst hhs
      have hlen48 : 48 ≤ data.length := by
        unfold NtpHeaderV3V4.deserialize at hd
        by_cases hl : data.length < NtpHeaderV3V4.LENGTH
        · rw [if_pos hl] at hd; cases hd
        · unfold NtpHeaderV3V4.LENGTH at hl; omega
      by_cases hml : 48 ≠ data.length
      · rw [if_pos hml] at hp
        cases hm : Mac.deserialize (data.drop 48) with
        | error e => rw [hm] at hp; cases hp
        | ok mac =>
          rw [hm] at hp
          dsimp only at hp
          cases hp
          obtain ⟨hmac, -, -⟩ := mac_reserialize (data.drop 48) mac
            (fun b hb => hbytes b (List.mem_of_mem_drop hb)) hm
          show NtpHeaderV3V4.serialize header 3 ++ Mac.serialize mac = data
          rw [hdr3, hmac]
          exact List.take_append_drop 48 data
      · rw [if_neg hml] at hp
        cases hp
        show NtpHeaderV3V4.serialize header 3 ++ [] = data
        rw [List.append_nil, hdr3]
        rw [show (48 : Nat) = data.length from by omega]
        exact List.take_length data
  · rw [if_neg hv3] at hp
    by_cases hv4 : (byteAt data 0 &&& 0x38) >>> 3 = 4
    · rw [if_pos hv4] at hp
      cases hd : NtpHeaderV3V4.deserialize data with
      | error e => rw [hd] at hp; cases hp
      | ok pr =>
        obtain ⟨header, header_size⟩ := pr
        rw [hd] at hp
        dsimp only at hp
        obtain ⟨hdr4, hhs⟩ := header_reserialize data header header_size 4 hbytes hd hv4
        subst hhs
        have hlen48 : 48 ≤ data.length := by
          unfold NtpHeaderV3V4.deserialize at hd
          by_cases hl : data.length < NtpHeaderV3V4.LENGTH
          · rw [if_pos hl] at hd; cases hd
          · unfold NtpHeaderV3V4.LENGTH at hl; omega
        cases hefd : ExtensionFieldData.deserialize data 48 cipher with
        | error e => rw [hefd] at hp; cases hp
        | ok epr =>
          obtain ⟨efdata, hpf⟩ := epr
          rw [hefd] at hp
          dsimp only at hp
          by_cases hml : hpf ≠ data.length
          · rw [if_pos hml] at hp
            cases hm : Mac.deserialize (data.drop hpf) with
            | error e => rw [hm] at hp; cases hp
            | ok mac =>
              rw [hm] at hp
              dsimp only at hp
              cases hp
              obtain ⟨hauth, henc, hunt, hle1, hle2, -⟩ :=
                efd_reserialize data cipher efdata hpf hbytes hlen48
                  (hpre header rfl) hefd
              obtain ⟨hmac, -, -⟩ := mac_reserialize (data.drop hpf) mac
                (fun b hb => hbytes b (List.mem_of_mem_drop hb)) hm
              show NtpHeaderV3V4.serialize header 4 ++
                ExtensionFieldData.serialize efdata
                  (NtpHeaderV3V4.serialize header 4) cipher ++
                Mac.serialize mac = data
              unfold ExtensionFieldData.serialize
              rw [hauth, henc]
              dsimp only
              rw [if_neg (by simp)]
              simp only [List.append_nil, List.nil_append, serializeFields_nil]
              rw [hdr4, hunt, hmac]
              rw [show data.take 48 = listSlice data 0 48 from
                (listSlice_zero data 48).symm]
              rw [listSlice_append_listSlice data 0 48 hpf (by omega) hle1]
              rw [listSlice_zero]
              exact List.take_append_drop hpf data
          · rw [if_neg hml] at hp
            cases hp
            obtain ⟨hauth, henc, hunt, hle1, hle2, -⟩ :=
              efd_reserialize data cipher efdata hpf hbytes hlen48
                (hpre header rfl) hefd
            show NtpHeaderV3V4.serialize header 4 ++
              ExtensionFieldData.serialize efdata
                (NtpHeaderV3V4.serialize header 4) cipher ++ [] = data
            unfold ExtensionFieldData.serialize
            rw [hauth, henc]
            dsimp only
            rw [if_neg (by simp)]
            simp only [List.append_nil, List.nil_append, serializeFields_nil]
            rw [hdr4, hunt]
            rw [show data.take 48 = listSlice data 0 48 from
              (listSlice_zero data 48).symm]
            rw [listSlice_append_listSlice data 0 48 hpf (by omega) hle1]
            rw [listSlice_zero]
            rw [show hpf = data.length from by omega]
            exact List.take_length data
    · rw [if_neg hv4] at hp
      cases hp

/-! ## Claim theorems: round-trip and trust partitioning -/

/-- Claim C1 (corrected): round-trip on a restricted valid subset.
Parse-after-serialize holds (1) for v3 packets with a well-formed header and
MAC, (2) for v4 packets with no authenticated or encrypted fields whose
untrusted fields are valid with 28-octet-or-longer frames (and MAC alignment),
and (3) for v4 packets with an encrypted container under explicit
cipher-round-trip hypotheses; and (4) serialize-after-parse restores the
exact input bytes for every accepted byte vector of octets below 256 whose
pre-scan finds no encrypted container.  The unrestricted claim is refuted by
`C1_roundtrip_counterexample`. -/
theorem C1_roundtrip_valid_subset :
    (∀ (h : NtpHeaderV3V4) (mac : Option Mac) (cipher : Cipher),
      wellFormedHeader h = true → wellFormedMac mac = true →
      NtpPacket.deserialize
        (NtpPacket.serialize
          { header := .V3 h, efdata := ExtensionFieldData.default, mac := mac } cipher)
        cipher =
        .ok { header := .V3 h, efdata := ExtensionFieldData.default, mac := mac }) ∧
    (∀ (h : NtpHeaderV3V4) (us : List ExtensionField) (mac : Option Mac)
        (cipher : Cipher),
      wellFormedHeader h = true → wellFormedMac mac = true →
      (∀ f ∈ us, validField f = true ∧ 28 ≤ (ExtensionField.serialize f).length) →
      us = [] ∨ (macBytes mac).length % 4 = 0 →
      NtpPacket.deserialize
        (NtpPacket.serialize
          { header := .V4 h,
            efdata := { authenticated := [], encrypted := [], untrusted := us },
            mac := mac } cipher) cipher =
        .ok { header := .V4 h,
              efdata := { authenticated := [], encrypted := [], untrusted := us },
              mac := mac }) ∧
    (∀ (h : NtpHeaderV3V4) (as es us : List ExtensionField) (mac : Option Mac)
        (cipher : Cipher),
      wellFormedHeader h = true → wellFormedMac mac = true →
      (∀ f ∈ as, validField f = true ∧ 28 ≤ (ExtensionField.serialize f).length) →
      (∀ f ∈ es, validField f = true) →
      (∀ f ∈ us, validField f = true ∧ 28 ≤ (ExtensionField.serialize f).length) →
      as ≠ [] ∨ es ≠ [] →
      1 ≤ (cipher.encrypt nts_nonce (serializeFields es)
        (NtpHeaderV3V4.serialize h 4 ++ serializeFields as)).length →
      (cipher.encrypt nts_nonce (serializeFields es)
        (NtpHeaderV3V4.serialize h 4 ++ serializeFields as)).length ≤ 65504 →
      cipher.decrypt nts_nonce
        (cipher.encrypt nts_nonce (serializeFields es)
          (NtpHeaderV3V4.serialize h 4 ++ serializeFields as))
        (NtpHeaderV3V4.serialize h 4 ++ serializeFields as) =
        some (serializeFields es) →
      (macBytes mac).length % 4 = 0 →
      NtpPacket.deserialize
        (NtpPacket.serialize
          { header := .V4 h,
            efdata := { authenticated := as, encrypted := es, untrusted := us },
            mac := mac } cipher) cipher =
        .ok { header := .V4 h,
              efdata := { authenticated := as, encrypted := es, untrusted := us },
              mac := mac }) ∧
    (∀ (data : List Nat) (cipher : Cipher) (p : NtpPacket),
      (∀ b ∈ data, b < 256) →
      NtpPacket.deserialize data cipher = .ok p →
      (∀ hh : NtpHeaderV3V4, p.header = .V4 hh →
        ∃ fs poff, ExtensionFieldData.deserialize_pre data data.length 48 [] =
          .ok (fs, none, poff)) →
      NtpPacket.serialize p cipher = data) := by
  refine ⟨?_, ?_, ?_, ?_⟩
  · intro h mac cipher hw hwm
    exact packet_roundtrip_v3 h mac cipher hw hwm
  · intro h us mac cipher hw hwm hvu halign
    exact packet_roundtrip_v4_plain h us mac cipher hw hwm hvu halign
  · intro h as es us mac cipher hw hwm hvas hves hvus hne hct1 hct2 hdec halign
    exact packet_roundtrip_v4_container h as es us mac cipher hw hwm hvas hves hvus
      hne hct1 hct2 hdec halign
  · intro data cipher p hbytes hp hpre
    exact packet_reserialize data cipher p hbytes hp hpre

set_option maxRecDepth 4000 in
/-- Counterexample to Claim C1 as stated: a v4 packet with a single small
(16-octet-frame) cookie field serializes successfully, but the parser reads
the 16 octets after the header back as a MAC trailer, so parse-after-serialize
does not return the original packet. -/
theorem C1_roundtrip_counterexample :
    NtpPacket.serialize smallCookiePacket idCipher ≠ [] ∧
    NtpPacket.deserialize (NtpPacket.serialize smallCookiePacket idCipher) idCipher ≠
      .ok smallCookiePacket := by
  constructor
  · decide
  · decide

set_option maxRecDepth 4000 in
/-- Witness for C1: the v4-plain round-trip conjunct at a concrete packet
with one 36-octet-frame unique-identifier field and a MAC, and the
serialize-after-parse conjunct at a bare 48-octet v4 header. -/
theorem C1_roundtrip_valid_subset_witness :
    NtpPacket.deserialize (NtpPacket.serialize wPacket idCipher) idCipher =
      .ok wPacket ∧
    NtpPacket.serialize
      { header := .V4 NtpHeaderV3V4.new, efdata := ExtensionFieldData.default,
        mac := none } idCipher = headerOnly48 := by
  constructor
  · exact C1_roundtrip_valid_subset.2.1 NtpHeaderV3V4.new [uidFieldA]
      (some { keyid := 1, mac := [2, 3, 4, 5] }) idCipher
      (by decide) (by decide) (by decide) (Or.inr (by decide))
  · exact C1_roundtrip_valid_subset.2.2.2 headerOnly48 idCipher
      { header := .V4 NtpHeaderV3V4.new, efdata := ExtensionFieldData.default,
        mac := none }
      (by decide) (by decide)
      (fun hh _ => ⟨[], 48, by decide⟩)

/-- Claim C2: trust partitioning of parsed extension fields.  (1) Whenever
the first parsing loop finds no encrypted container, a successful
`ExtensionFieldData::deserialize` leaves `authenticated` and `encrypted`
empty.  (2) On bytes laid out as valid plain fields (with a short aligned
tail), all fields land, in order, in `untrusted`.  (3) On bytes laid out as
fields, an encrypted container, and more fields, the fields before the
container are exactly `authenticated`, the decrypted inner fields exactly
`encrypted`, and the fields after exactly `untrusted`, each in order. -/
theorem C2_trust_partitioning :
    (∀ (data : List Nat) (cipher : Cipher) (efd : ExtensionFieldData)
        (off2 : Nat) (fs : List ExtensionField) (poff : Nat),
      ExtensionFieldData.deserialize_pre data data.length 48 [] =
        .ok (fs, none, poff) →
      ExtensionFieldData.deserialize data 48 cipher = .ok (efd, off2) →
      efd.authenticated = [] ∧ efd.encrypted = []) ∧
    (∀ (data : List Nat) (cipher : Cipher) (fs : List ExtensionField)
        (tail : List Nat),
      (∀ f ∈ fs, validField f = true ∧ 28 ≤ (ExtensionField.serialize f).length) →
      data.drop 48 = serializeFields fs ++ tail →
      48 ≤ data.length → tail.length < 28 → tail.length % 4 = 0 →
      ExtensionFieldData.deserialize data 48 cipher =
        .ok ({ authenticated := [], encrypted := [], untrusted := fs },
          48 + (serializeFields fs).length)) ∧
    (∀ (data : List Nat) (cipher : Cipher) (pre es post : List ExtensionField)
        (nonce ct tail : List Nat),
      (∀ f ∈ pre, validField f = true ∧ 28 ≤ (ExtensionField.serialize f).length) →
      (∀ f ∈ es, validField f = true) →
      (∀ f ∈ post, validField f = true ∧ 28 ≤ (ExtensionField.serialize f).length) →
      data.drop 48 = serializeFields pre ++
        (encryptedFrame nonce ct ++ (serializeFields post ++ tail)) →
      48 ≤ data.length →
      nonce.length = 16 → 1 ≤ ct.length → ct.length ≤ 65504 →
      cipher.decrypt nonce ct (data.take (48 + (serializeFields pre).length)) =
        some (serializeFields es) →
      tail.length < 28 → tail.length % 4 = 0 →
      ExtensionFieldData.deserialize data 48 cipher =
        .ok ({ authenticated := pre, encrypted := es, untrusted := post },
          48 + (serializeFields pre).length + (encryptedFrame nonce ct).length +
            (serializeFields post).length)) := by
  refine ⟨?_, ?_, ?_⟩
  · intro data cipher efd off2 fs poff hpeq hefd
    unfold ExtensionFieldData.deserialize at hefd
    rw [hpeq] at hefd
    dsimp only at hefd
    cases hpost : ExtensionFieldData.deserialize_post data data.length poff fs with
    | error e => rw [hpost] at hefd; cases hefd
    | ok pr =>
      obtain ⟨u2, o2⟩ := pr
      rw [hpost] at hefd
      dsimp only at hefd
      simp only [Except.ok.injEq, Prod.mk.injEq] at hefd
      rw [← hefd.1]
      exact ⟨rfl, rfl⟩
  · intro data cipher fs tail hv hdrop h48 htail htail4
    exact efd_deserialize_fields_only data cipher fs tail hv hdrop h48 htail htail4
  · intro data cipher pre es post nonce ct tail hvpre hves hvpost hdrop h48 hn
      hct1 hct2 hdec htail htail4
    exact efd_deserialize_with_container data cipher pre es post nonce ct tail
      hvpre hves hvpost hdrop h48 hn hct1 hct2 hdec htail htail4

set_option maxRecDepth 4000 in
/-- Witness for C2: the with-container conjunct at a concrete 160-octet byte
vector (one unique-identifier field, an identity-cipher encrypted container
holding one cookie field, one unique-identifier field after), which parses
into the expected three-way partition. -/
theorem C2_trust_partitioning_witness :
    ExtensionFieldData.deserialize c2bytes 48 idCipher =
      .ok ({ authenticated := [uidFieldA], encrypted := [cookieFieldA],
             untrusted := [uidFieldB] },
        48 + (serializeFields [uidFieldA]).length +
          (encryptedFrame (List.replicate 16 0)
            (serializeFields [cookieFieldA])).length +
          (serializeFields [uidFieldB]).length) := by
  exact C2_trust_partitioning.2.2 c2bytes idCipher [uidFieldA] [cookieFieldA]
    [uidFieldB] (List.replicate 16 0) (serializeFields [cookieFieldA]) []
    (by decide) (by decide) (by decide) (by decide) (by decide)
    (by decide) (by decide) (by decide) (by decide) (by decide) (by decide)
